import Mathlib

/-!
Pelican: the client's director queries, the director's store of server
advertisements, and the configuration

A shallow embedding of

* `client/director.go`: `fromPelican`, `queryDirector`,
  `parseServersFromDirectorResponse`;
* `client/main.go`: `generateSortedObjServers`, `DoCopy` and the end of
  `DoGet`;
* `director/cache_ads.go`: `recordAd`;
* `config/config.go`: `discoverFederationImpl`, `GetServerIssuerURL`,
  `GetEnabledServerString`, the end of `SetClientDefaults` and the start of
  `InitServer`;

with the properties of the retry loop and its back-off, the DELETE-to-PUT
fallback, the `Link` header, the preferred-server list, the store of
advertisements and the resolution of configuration values.

Conventions of the embedding.

* A Go `string` is a Lean `String`, a text in UTF-8. The string functions used
  with ASCII arguments (`strings.HasPrefix`, `strings.Split`,
  `strings.ReplaceAll`, `strings.TrimPrefix`) act alike on its bytes and on its
  characters. The two byte-indexed slices of `parseServersFromDirectorResponse`
  are taken by bytes: a slice that cuts a character gives a `GoString`, a text
  followed by the bytes left of the cut character.
* A `time.Duration` and an instant are `Int` numbers of nanoseconds; a
  `float32` is an exact dyadic rational, and the one `float32` product of the
  source is rounded as IEEE 754 prescribes.
* The HTTP exchange is made explicit: the director is a stream of replies, one
  per request sent, and `rand.Float32` is a stream of draws.  Every function
  that talks to the director returns the list of `Event`s it caused.
* Global state (the store `serverAds`, the `viper` configuration) is passed in
  and returned.
* Library and out-of-package functions (`url.Parse`, `sort.Slice`,
  `json.Unmarshal`, `utils.HasContentType`, `http.NewRequestWithContext`,
  `pelican_url.DiscoverFederation`, `ServerType.String`) are parameters.
-/

namespace Pelican

deriving instance DecidableEq for Except

/-! ## Go string helpers -/

/-- Go `strings.HasPrefix(s, p)`. -/
def hasPrefix (s p : String) : Bool := p.data.isPrefixOf s.data

/-- Whether `p` occurs in `s` starting at some position (on character lists). -/
def containsList : List Char → List Char → Bool
  | [], p => p.isEmpty
  | c :: cs, p => p.isPrefixOf (c :: cs) || containsList cs p

/-- Go `strings.Contains(s, p)`. -/
def strContains (s p : String) : Bool := containsList s.data p.data

/-- Go `strings.ToLower(s)` on ASCII letters (`A`..`Z` become `a`..`z`). -/
def strToLower (s : String) : String := String.mk (s.data.map Char.toLower)

/-! ## HTTP data -/

/-- The result of `io.ReadAll(resp.Body)`: the bytes read, or the read error. -/
inductive ReadAll where
  | ok (body : String)
  | error (msg : String)
  deriving DecidableEq

/-- The parts of a Go `*http.Response` that `client/director.go` reads. -/
structure Response where
  /-- The field `resp.StatusCode`. -/
  StatusCode : Int
  /-- The value of `resp.Header.Get("Server")`. -/
  Server : String
  /-- The value of `resp.Header.Get("Content-Type")`. -/
  ContentType : String
  /-- The values of `resp.Header.Values("Link")`. -/
  Link : List String
  /-- What `io.ReadAll(resp.Body)` gives. -/
  Body : ReadAll
  deriving DecidableEq

/-- What `client.Do(req)` yields: a transport error (no response) or a response. -/
inductive Reply where
  | transportError (msg : String)
  | response (r : Response)
  deriving DecidableEq

/-- The request built by one iteration of the retry loop. -/
structure Request where
  Method : String
  URL : String
  UserAgent : String
  /-- The `Authorization` header, set only for a non-empty token. -/
  Authorization : Option String
  /-- The `X-Pelican-Debug` header, set only at debug log level. -/
  PelicanDebug : Bool
  deriving DecidableEq

/-- The fields of `pelican_url.PelicanURL` read by `queryDirector`. -/
structure PelicanURL where
  DirectorEndpoint : String
  Path : String
  RawQuery : String
  deriving DecidableEq

/-- The configuration and process state read by `queryDirector`. -/
structure Config where
  /-- The parameter `Client.DirectorRetries`. -/
  DirectorRetries : Int
  /-- The parameter `Client.AssumeDirectorServerHeader`. -/
  AssumeDirectorServerHeader : Bool
  /-- The value of `config.GetVersion()`. -/
  Version : String
  /-- The value of `log.IsLevelEnabled(log.DebugLevel)`. -/
  DebugLevel : Bool

/-- The errors `queryDirector` can return. -/
inductive QueryError where
  /-- `url.Parse(pUrl.FedInfo.DirectorEndpoint)` failed. -/
  | urlParse (msg : String)
  /-- `http.NewRequestWithContext` failed. -/
  | newRequest (msg : String)
  /-- `client.Do` failed. -/
  | transport (msg : String)
  /-- `io.ReadAll(resp.Body)` failed. -/
  | readBody (msg : String)
  /-- `json.Unmarshal` of the body failed. -/
  | unmarshal (msg : String)
  /-- A `*StatusCodeError`. -/
  | statusCode (code : Int)
  /-- The error `errors.Errorf("%d: %s", resp.StatusCode, errMsg)`, as its text. -/
  | message (text : String)
  deriving DecidableEq

/-- Library functions used by `queryDirector`, kept abstract. -/
structure Lib where
  /-- The string of the request URL: `url.Parse` of the director endpoint with
  the path and query of the Pelican URL, or the parse error. -/
  resourceUrl : PelicanURL → Except String String
  /-- Whether `http.NewRequestWithContext(ctx, verb, url, nil)` succeeds; the
  error text otherwise. -/
  newRequest : String → String → Except String Unit
  /-- The function `utils.HasContentType(resp, mime)`. -/
  hasContentType : Response → String → Bool
  /-- The `Msg` field after `json.Unmarshal(body, &respErr)` into a
  `server_structs.SimpleApiResp`, or the unmarshal error. -/
  unmarshalMsg : String → Except String String

/-- The world outside the client. -/
structure World where
  /-- The reply to the `k`-th request sent to the director (from 0). -/
  director : Nat → Reply
  /-- The `k`-th value drawn from `rand.Float32()` (from 0), a `float32` given
  as its numerator over `2^149`. -/
  float32 : Nat → Nat

/-- What a call does that can be observed from outside. -/
inductive Event where
  | request (req : Request)
  | sleep (d : Int)
  deriving DecidableEq

/-- The number of requests sent so far and of random draws made so far. -/
structure Cursor where
  sent : Nat
  drawn : Nat
  deriving DecidableEq

/-! ## `client/director.go` -/

/-- Go `fromPelican`. -/
def fromPelican (cfg : Config) (resp : Response) : Bool :=
  if cfg.AssumeDirectorServerHeader then true
  else hasPrefix resp.Server "pelican/"

/-- Go `getUserAgent` from `client/main.go`. -/
def getUserAgent (cfg : Config) (project : String) : String :=
  let agent := "pelican-client/" ++ cfg.Version
  if project ≠ "" then agent ++ " project/" ++ project else agent

/-- Go `time.Second`, in nanoseconds. -/
def Second : Int := 1000000000

/-- Go `time.Millisecond`, in nanoseconds. -/
def Millisecond : Int := 1000000

/-! ### `float32` arithmetic of the jitter

Every finite non-negative `float32` is a multiple of `2^-149` whose quotient
has at most 24 significant bits. Such a value is held as its numerator over
`2^149`. -/

/-- Number of low bits that a 24-bit significand cannot hold: `0` below `2^24`,
else one more than for `n / 2`. The second argument bounds the recursion. -/
def excessBits (n : Nat) : Nat → Nat
  | 0 => 0
  | fuel + 1 => if n < 2 ^ 24 then 0 else excessBits (n / 2) fuel + 1

/-- Whether `m · 2^-149` is a `float32` value. -/
def isFloat32 (m : Nat) : Bool := m % 2 ^ excessBits m m == 0

/-- The `float32` nearest to `n · 2^-149`, ties to the even significand, as its
numerator over `2^149` (IEEE 754 rounding of an exact result; overflow to
infinity does not arise below `2^128`). -/
def roundFloat32 (n : Nat) : Nat :=
  let k := excessBits n n
  let q := n / 2 ^ k
  let r := n % 2 ^ k
  if 2 * r > 2 ^ k ∨ (2 * r = 2 ^ k ∧ q % 2 = 1) then (q + 1) * 2 ^ k else q * 2 ^ k

/-- The conversion `time.Duration(x)` of a non-negative `float32` `x`, given as
its numerator over `2^149`: truncation to an integer. -/
def truncate (m : Nat) : Int := ((m / 2 ^ 149 : Nat) : Int)

/-- The argument of `time.Sleep` in the retry loop,
`time.Duration(sleepFor)*time.Second + time.Duration(rand.Float32()*1000)*time.Millisecond`
with `sleepFor := 3*idx + 3`; `f` is the value drawn from `rand.Float32()`, as
its numerator over `2^149`. The integers are unbounded: the 64-bit count of
nanoseconds of the source wraps only from the iteration 3 074 457 344 on
(`backoff_lt_int64`), after more than `10^19` seconds of sleep. -/
def backoff (idx : Nat) (f : Nat) : Int :=
  let sleepFor : Int := 3 * idx + 3
  sleepFor * Second + truncate (roundFloat32 (f * 1000)) * Millisecond

/-- How one iteration of the retry loop ends. -/
inductive Attempt where
  /-- A `return` inside the loop body. -/
  | exit (resp : Option Response) (err : QueryError)
  /-- The `break`: the response is final. -/
  | stop (resp : Response) (body : String) (fromDirector : Bool)
  /-- The iteration slept and the loop goes on to `idx++`. -/
  | again (resp : Response) (body : String) (fromDirector : Bool)
  deriving DecidableEq

/-- What a piece of the call did and where it left the outside world. -/
structure Ran (α : Type) where
  events : List Event
  cursor : Cursor
  value : α

/-- The request of one iteration: `http.NewRequestWithContext` with the verb and
the URL, then the `User-Agent`, `Authorization` and `X-Pelican-Debug` headers. -/
def newRequest (cfg : Config) (verb url token : String) : Request :=
  { Method := verb, URL := url, UserAgent := getUserAgent cfg "",
    Authorization := if token ≠ "" then some ("Bearer " ++ token) else none,
    PelicanDebug := cfg.DebugLevel }

/-- The body of the retry loop of `queryDirector`, for the iteration `idx`. -/
def attempt (cfg : Config) (lib : Lib) (w : World) (verb url token : String)
    (idx : Nat) (cur : Cursor) : Ran Attempt :=
  match lib.newRequest verb url with
  | .error e => ⟨[], cur, .exit none (.newRequest e)⟩
  | .ok _ =>
    let req := newRequest cfg verb url token
    let cur1 : Cursor := { cur with sent := cur.sent + 1 }
    match w.director cur.sent with
    | .transportError e => ⟨[.request req], cur1, .exit none (.transport e)⟩
    | .response resp =>
      match resp.Body with
      | .error e => ⟨[.request req], cur1, .exit (some resp) (.readBody e)⟩
      | .ok body =>
        let fromDirector := fromPelican cfg resp
        if !fromDirector && (resp.StatusCode == 502 || resp.StatusCode == 404
            || resp.StatusCode == 500) then
          ⟨[.request req, .sleep (backoff idx (w.float32 cur.drawn))],
            { cur1 with drawn := cur.drawn + 1 }, .again resp body fromDirector⟩
        else if fromDirector && resp.StatusCode == 429 then
          ⟨[.request req, .sleep (backoff idx (w.float32 cur.drawn))],
            { cur1 with drawn := cur.drawn + 1 }, .again resp body fromDirector⟩
        else
          ⟨[.request req], cur1, .stop resp body fromDirector⟩

/-- How the retry loop ends: by a `return` in its body, or by leaving the loop
with the last response, its body and the last `fromDirector`. -/
inductive LoopEnd where
  | returned (resp : Option Response) (err : QueryError)
  | finished (resp : Response) (body : String) (fromDirector : Bool)
  deriving DecidableEq

/-- The loop `for idx := 0; idx < numRetries; idx++`, entered at iteration `idx`
with `more = numRetries - 1 - idx` iterations left after this one (the loop
runs at least once because `numRetries ≥ 1`). -/
def retryLoop (cfg : Config) (lib : Lib) (w : World) (verb url token : String) :
    Nat → Nat → Cursor → Ran LoopEnd
  | more, idx, cur =>
    match attempt cfg lib w verb url token idx cur with
    | ⟨evs, cur1, .exit resp err⟩ => ⟨evs, cur1, .returned resp err⟩
    | ⟨evs, cur1, .stop resp body fd⟩ => ⟨evs, cur1, .finished resp body fd⟩
    | ⟨evs, cur1, .again resp body fd⟩ =>
      match more with
      | 0 => ⟨evs, cur1, .finished resp body fd⟩
      | k + 1 =>
        let rest := retryLoop cfg lib w verb url token k (idx + 1) cur1
        ⟨evs ++ rest.events, rest.cursor, rest.value⟩

/-- The value of `numRetries` when the loop starts. -/
def numRetries (cfg : Config) : Int :=
  if cfg.DirectorRetries < 1 then 1 else cfg.DirectorRetries

/-- The pair `(resp, err)` that `queryDirector` returns. -/
structure Result where
  resp : Option Response
  err : Option QueryError
  deriving DecidableEq

/-- Go `queryDirector`. -/
def queryDirector (cfg : Config) (lib : Lib) (w : World) (verb : String)
    (pUrl : PelicanURL) (token : String) (cur : Cursor) : Ran Result :=
  match lib.resourceUrl pUrl with
  | .error e => ⟨[], cur, ⟨none, some (.urlParse e)⟩⟩
  | .ok url =>
    let loop := retryLoop cfg lib w verb url token (numRetries cfg - 1).toNat 0 cur
    match loop.value with
    | .returned resp err => ⟨loop.events, loop.cursor, ⟨resp, some err⟩⟩
    | .finished resp body fromDirector0 =>
      let json := resp.StatusCode != 307 && lib.hasContentType resp "application/json"
      match (if json then lib.unmarshalMsg body else .ok "") with
      | .error e => ⟨loop.events, loop.cursor, ⟨some resp, some (.unmarshal e)⟩⟩
      | .ok msg =>
        let fromDirector := if json then true else fromDirector0
        let errMsg := if json && msg != "" then msg else body
        let bodyString := body
        if resp.StatusCode == 207 && verb == "PROPFIND" then
          ⟨loop.events, loop.cursor, ⟨some resp, none⟩⟩
        else if resp.StatusCode != 307 then
          if resp.StatusCode == 404 && verb == "DELETE"
              && strContains (strToLower bodyString) "page not found" then
            let put := queryDirector cfg lib w "PUT" pUrl token loop.cursor
            ⟨loop.events ++ put.events, put.cursor, put.value⟩
          else if resp.StatusCode == 404 && fromDirector
              && (errMsg == "All sources report object was not found"
                || errMsg == "Object not found at any cache") then
            ⟨loop.events, loop.cursor, ⟨some resp, some (.statusCode 404)⟩⟩
          else
            ⟨loop.events, loop.cursor,
              ⟨some resp, some (.message (toString resp.StatusCode ++ ": " ++ errMsg))⟩⟩
        else
          ⟨loop.events, loop.cursor, ⟨some resp, none⟩⟩
termination_by (if verb = "DELETE" then 1 else 0)
decreasing_by
  simp_all

/-! ### `parseServersFromDirectorResponse` -/

/-- Splitting at a one-character separator, with the piece being read kept in
reverse in the second argument. -/
def splitAux (sep : Char) : List Char → List Char → List (List Char)
  | [], acc => [acc.reverse]
  | c :: cs, acc =>
    if c = sep then acc.reverse :: splitAux sep cs [] else splitAux sep cs (c :: acc)

/-- Go `strings.Split(s, sep)` for a separator of one character. -/
def strSplit (s : String) (sep : Char) : List String :=
  (splitAux sep s.data []).map String.mk

/-- Go `strings.ReplaceAll(s, " ", "")`. -/
def removeSpaces (s : String) : String := String.mk (s.data.filter (fun c => c ≠ ' '))

/-- The digit loop of Go `strconv.ParseUint(s, 10, 64)`: `none` is a syntax
error, and the value stops at `2^64 - 1` as soon as it would pass it. -/
def parseDigits : List Char → Nat → Option Nat
  | [], n => some n
  | c :: cs, n =>
    if c.isDigit then
      let n1 := n * 10 + (c.toNat - 48)
      if n1 > 2 ^ 64 - 1 then some (2 ^ 64 - 1) else parseDigits cs n1
    else none

/-- The value of Go `strconv.Atoi(s)` with its error dropped (64-bit `int`): `0`
on a syntax error, the nearest bound of the `int` range on a range error. -/
def atoi (s : String) : Int :=
  let signed : Bool × List Char :=
    match s.data with
    | '+' :: r => (false, r)
    | '-' :: r => (true, r)
    | r => (false, r)
  if signed.2.isEmpty then 0
  else
    match parseDigits signed.2 0 with
    | none => 0
    | some un =>
      if signed.1 then (if un > 2 ^ 63 then -(2 ^ 63 : Int) else -(un : Int))
      else (if un ≥ 2 ^ 63 then (2 ^ 63 - 1 : Int) else (un : Int))

/-- The UTF-8 encoding of a character, as the values of its bytes. -/
def utf8Char (c : Char) : List Nat :=
  if c.toNat < 128 then [c.toNat]
  else if c.toNat < 2048 then [192 + c.toNat / 64, 128 + c.toNat % 64]
  else if c.toNat < 65536 then
    [224 + c.toNat / 4096, 128 + c.toNat / 64 % 64, 128 + c.toNat % 64]
  else
    [240 + c.toNat / 262144, 128 + c.toNat / 4096 % 64, 128 + c.toNat / 64 % 64,
      128 + c.toNat % 64]

/-- A Go `string` made by a slice expression that may have cut its last
character: a text, followed by the first bytes of the cut character (none when
the string ends with a whole character). -/
structure GoString where
  text : String
  cut : List Nat
  deriving DecidableEq

/-- The slice `val[1 : len(val)-1]` of a string that starts with a character of
one byte: all of `val` but its first and its last byte. With `last` the last
character of what follows the first one, the slice ends with the encoding of
`last` less its final byte, which is nothing for an ASCII character. `none` is
the run-time panic for `len(val) < 2`. -/
def sliceInner (val : String) : Option GoString :=
  match (val.data.drop 1).reverse with
  | [] => none
  | last :: init => some ⟨String.mk init.reverse, (utf8Char last).dropLast⟩

/-- The value of `strconv.Atoi(val[4:])`, with its error dropped, for a string
that starts with "pri": when the fourth character is ASCII the slice is the
text after it; otherwise the slice starts inside that character, with a byte
that is no sign and no digit, and `Atoi` gives 0. `none` is the run-time panic
for `len(val) < 4`. -/
def priValue (val : String) : Option Int :=
  match val.data.drop 3 with
  | [] => none
  | c :: cs => some (if c.toNat < 128 then atoi (String.mk cs) else 0)

/-- Go `ServerPriority`. -/
structure ServerPriority (U : Type) where
  URL : U
  Priority : Int

/-- The loop `for _, val := range links` of `parseServersFromDirectorResponse`
on the variables `endpoint` and `pri`. An `error` is a run-time panic of a
slice expression. -/
def scanLinks : List String → GoString × Int → Except String (GoString × Int)
  | [], st => .ok st
  | val :: rest, (endpoint, pri) =>
    if hasPrefix val "<" then
      -- `endpoint = val[1 : len(val)-1]`
      match sliceInner val with
      | none => .error "slice bounds out of range [1:0]"
      | some inner => scanLinks rest (inner, pri)
    else if hasPrefix val "pri" then
      -- `pri, _ = strconv.Atoi(val[4:])`
      match priValue val with
      | none => .error "slice bounds out of range [4:3]"
      | some n => scanLinks rest (endpoint, n)
    else scanLinks rest (endpoint, pri)

/-- The loop `for _, linksStr := range strings.Split(linkHeader[0], ",")` of
`parseServersFromDirectorResponse` on the slice `serversPrio`; `parse` is
`url.Parse`, with `none` for an error. -/
def collectServers {U : Type} (parse : GoString → Option U) :
    List String → List (ServerPriority U) → Except String (List (ServerPriority U))
  | [], serversPrio => .ok serversPrio
  | linksStr :: rest, serversPrio =>
    match scanLinks (strSplit (removeSpaces linksStr) ';') (⟨"", []⟩, 0) with
    | .error p => .error p
    | .ok (endpoint, pri) =>
      match parse endpoint with
      | none => collectServers parse rest serversPrio
      | some server => collectServers parse rest (serversPrio ++ [⟨server, pri⟩])

/-- Go `parseServersFromDirectorResponse`; the returned `err` is always `nil`
and is left out. An `error` is a run-time panic. `sort` is the call
`sort.Slice(serversPrio, less)` with `less` comparing `Priority` by `<`, and
`parse` is `url.Parse`. -/
def parseServersFromDirectorResponse {U : Type}
    (sort : List (ServerPriority U) → List (ServerPriority U))
    (parse : GoString → Option U) (resp : Response) : Except String (List U) :=
  match resp.Link with
  | [] => .ok []
  | linkHeader0 :: _ =>
    match collectServers parse (strSplit linkHeader0 ',') [] with
    | .error p => .error p
    | .ok serversPrio => .ok ((sort serversPrio).map (fun sp => sp.URL))

/-- What `sort.Slice(serversPrio, less)` does on a slice of at most 12
elements, where Go sorts by insertion: the stable insertion sort by
`Priority`. It stands in for `sort.Slice` on the concrete inputs below, which
have at most two entries. -/
def sortSlice {U : Type} (serversPrio : List (ServerPriority U)) : List (ServerPriority U) :=
  serversPrio.insertionSort (fun a b => a.Priority ≤ b.Priority)

/-! ## `client/main.go` -/

/-- The field of `server_structs.DirectorResponse` that
`generateSortedObjServers` reads. -/
structure DirectorResponse (U : Type) where
  ObjectServers : List U

/-- The loop `for idx, preferredCache := range preferredCaches` of
`generateSortedObjServers` from index `idx` on, on the variables
`preferredObjectServers` and `appendCaches`; `len` is `len(preferredCaches)`
and `str` is `(*url.URL).String`. An `error` is the `return` with that error. -/
def scanPreferred {U : Type} (str : U → String) (len : Nat) :
    List U → Nat → List U × Bool → Except String (List U × Bool)
  | [], _, st => .ok st
  | preferredCache :: rest, idx, (preferredObjectServers, appendCaches) =>
    let cacheUrl := str preferredCache
    if cacheUrl = "" then
      .error "Preferred server was specified as an empty string"
    else if cacheUrl = "+" then
      if idx ≠ len - 1 then
        .error "The special character '+' must be the last item in the list of preferred servers"
      else scanPreferred str len rest (idx + 1) (preferredObjectServers, true)
    else
      scanPreferred str len rest (idx + 1) (preferredObjectServers ++ [preferredCache], appendCaches)

/-- Go `generateSortedObjServers`: the pair `(objectServers, err)`. -/
def generateSortedObjServers {U : Type} (str : U → String) (dirResp : DirectorResponse U)
    (preferredCaches : List U) : List U × Option String :=
  if preferredCaches.length > 0 then
    match scanPreferred str preferredCaches.length preferredCaches 0 ([], false) with
    | .error e => ([], some e)
    | .ok (preferredObjectServers, appendCaches) =>
      if !appendCaches then (preferredObjectServers, none)
      else (preferredObjectServers ++ dirResp.ObjectServers, none)
  else
    ([] ++ dirResp.ObjectServers, none)

/-! ## Observations on a trace -/

/-- The requests sent, in order. -/
def requestsOf : List Event → List Request
  | [] => []
  | .request req :: evs => req :: requestsOf evs
  | .sleep _ :: evs => requestsOf evs

/-- The durations slept, in order. -/
def sleepsOf : List Event → List Int
  | [] => []
  | .request _ :: evs => sleepsOf evs
  | .sleep d :: evs => d :: sleepsOf evs

/-! ## Concrete inputs -/

/-- A configuration with one attempt per query. -/
def cfgOne : Config :=
  { DirectorRetries := 1, AssumeDirectorServerHeader := false, Version := "7.10.0",
    DebugLevel := false }

/-- Stand-ins for the library functions: the request URL is the director
endpoint followed by the path, every request can be built, the content type is
compared by prefix, and a body unmarshals when it starts with an opening brace
(to an empty `Msg`). -/
def libPlain : Lib :=
  { resourceUrl := fun p => .ok (p.DirectorEndpoint ++ p.Path),
    newRequest := fun _ _ => .ok (),
    hasContentType := fun r m => hasPrefix r.ContentType m,
    unmarshalMsg := fun body =>
      if hasPrefix body "\x7b" then .ok "" else .error "invalid character" }

/-- The Pelican URL of an object. -/
def objUrl : PelicanURL :=
  { DirectorEndpoint := "https://director.example", Path := "/ns/obj", RawQuery := "" }

/-- The 404 of a director that has no route for the request. -/
def pageNotFound : Response :=
  { StatusCode := 404, Server := "pelican/7.4.0", ContentType := "text/plain", Link := [],
    Body := .ok "404 page not found" }

/-- A director that answers every request with `pageNotFound`. -/
def oldDirector : World := { director := fun _ => .response pageNotFound, float32 := fun _ => 0 }

/-! ## The `Link` header as the director writes it

The specification has the director write, in the `Link` header, "one entry per
shortlisted server, `pri=<1-based rank>`". The definitions of this section
follow that sentence and the syntax of the header (RFC 8288): an entry is the
URL of the server between angle brackets followed by parameters, each
introduced by "; ", and the entries are separated by ", ". The text of the
header is built without any of the functions that model the code. -/

/-- An entry of the `Link` header: the URL of a server, its rank, and the other
parameters written before and after `pri`, such as `rel="duplicate"` and
`depth=1`. -/
structure SpecLinkEntry where
  URL : String
  pri : Nat
  before : List String
  after : List String
  deriving DecidableEq

/-- The digits of a number from the least significant one, put in front of
`acc`; the first argument bounds the recursion. -/
def specDecimalAux : Nat → Nat → List Char → List Char
  | 0, _, acc => acc
  | fuel + 1, n, acc =>
    if n < 10 then Char.ofNat (48 + n) :: acc
    else specDecimalAux fuel (n / 10) (Char.ofNat (48 + n % 10) :: acc)

/-- The decimal numeral of a number. -/
def specDecimal (n : Nat) : List Char := specDecimalAux (n + 1) n []

/-- The texts of a list, with `sep` between each two. -/
def specJoin (sep : List Char) : List (List Char) → List Char
  | [] => []
  | [x] => x
  | x :: y :: rest => x ++ sep ++ specJoin sep (y :: rest)

/-- The text of an entry: `<URL>`, then the parameters, `pri=<rank>` among
them, each after "; ". -/
def specEntryText (e : SpecLinkEntry) : List Char :=
  specJoin [';', ' ']
    ((['<'] ++ e.URL.data ++ ['>']) ::
      (e.before.map (fun p => p.data) ++ [['p', 'r', 'i', '='] ++ specDecimal e.pri]
        ++ e.after.map (fun p => p.data)))

/-- The value of the header that lists the given entries. -/
def specLinkText (entries : List SpecLinkEntry) : String :=
  String.mk (specJoin [',', ' '] (entries.map specEntryText))

/-- An entry in which neither the URL nor a parameter contains a comma, a
semicolon or a space, no parameter but `pri` starts with "<" or with "pri",
and the rank is below `2^63`. -/
@[reducible]
def SpecLinkEntry.plain (e : SpecLinkEntry) : Prop :=
  (∀ c ∈ e.URL.data, c ≠ ',' ∧ c ≠ ';' ∧ c ≠ ' ')
    ∧ e.pri < 2 ^ 63
    ∧ ∀ p ∈ e.before ++ e.after,
        (∀ c ∈ p.data, c ≠ ',' ∧ c ≠ ';' ∧ c ≠ ' ')
          ∧ hasPrefix p "<" = false ∧ hasPrefix p "pri" = false

/-- A configuration with three attempts per query. -/
def cfgThree : Config :=
  { DirectorRetries := 3, AssumeDirectorServerHeader := false, Version := "7.10.0",
    DebugLevel := false }

/-- The request URL of `objUrl` under `libPlain`. -/
def objRequestUrl : String := "https://director.example/ns/obj"

/-- The 502 of an ingress proxy in front of a director that is down. -/
def badGateway : Response :=
  { StatusCode := 502, Server := "traefik", ContentType := "text/plain", Link := [],
    Body := .ok "Bad Gateway" }

/-- A proxy that answers every request with `badGateway`, with every random
draw equal to one half. -/
def proxyDown : World :=
  { director := fun _ => .response badGateway, float32 := fun _ => 2 ^ 148 }

/-- A 404 that claims to be JSON and is not. -/
def jsonNotFound : Response :=
  { StatusCode := 404, Server := "pelican/7.4.0", ContentType := "application/json", Link := [],
    Body := .ok "404 page not found" }

/-- A director that answers every request with `jsonNotFound`. -/
def brokenJson : World := { director := fun _ => .response jsonNotFound, float32 := fun _ => 0 }

/-- The 207 of a director that proxies a PROPFIND. -/
def multiStatus : Response :=
  { StatusCode := 207, Server := "pelican/7.10.0", ContentType := "text/xml", Link := [],
    Body := .ok "<multistatus/>" }

/-- A director that answers every request with `multiStatus`. -/
def proxyingDirector : World :=
  { director := fun _ => .response multiStatus, float32 := fun _ => 0 }

/-- A redirect to two caches. -/
def redirect : Response :=
  { StatusCode := 307, Server := "pelican/7.10.0", ContentType := "",
    Link := ["<https://cache-b.example:8443/ns/obj>; rel=\"duplicate\"; pri=2; depth=1, <https://cache-a.example:8443/ns/obj>; rel=\"duplicate\"; pri=1; depth=1"],
    Body := .ok "" }

/-- A director that answers every request with `redirect`. -/
def redirecting : World := { director := fun _ => .response redirect, float32 := fun _ => 0 }

/-- Stand-in for `url.Parse` on the inputs used here: an error for a text that
starts with a colon ("missing protocol scheme"), else the URL, held as the
string it was parsed from. -/
def parseText (s : GoString) : Option GoString :=
  if hasPrefix s.text ":" then none else some s

/-- The two caches of `redirect`, as entries of the header. -/
def redirectEntries : List SpecLinkEntry :=
  [⟨"https://cache-b.example:8443/ns/obj", 2, ["rel=\"duplicate\""], ["depth=1"]⟩,
    ⟨"https://cache-a.example:8443/ns/obj", 1, ["rel=\"duplicate\""], ["depth=1"]⟩]

/-- A cache and an entry whose URL `url.Parse` rejects. -/
def badEntries : List SpecLinkEntry :=
  [⟨"https://cache-a.example:8443/ns/obj", 1, ["rel=\"duplicate\""], []⟩,
    ⟨":8443/ns/obj", 2, ["rel=\"duplicate\""], []⟩]

/-- An entry whose URL has a comma in its query. -/
def commaEntries : List SpecLinkEntry := [⟨"https://a.example/x?y=1,2", 1, [], []⟩]

/-- A redirect with the entry of `commaEntries`. -/
def redirectComma : Response :=
  { StatusCode := 307, Server := "pelican/7.10.0", ContentType := "",
    Link := ["<https://a.example/x?y=1,2>; pri=1"], Body := .ok "" }

/-- A redirect with two `Link` header lines, one cache in each. -/
def redirectTwoLines : Response :=
  { StatusCode := 307, Server := "pelican/7.10.0", ContentType := "",
    Link := ["<https://cache-a.example:8443/ns/obj>; pri=1",
      "<https://cache-b.example:8443/ns/obj>; pri=2"],
    Body := .ok "" }

/-- A redirect whose second entry has an endpoint that is no URL. -/
def redirectBadEntry : Response :=
  { StatusCode := 307, Server := "pelican/7.10.0", ContentType := "",
    Link := ["<https://cache-a.example:8443/ns/obj>; rel=\"duplicate\"; pri=1, <:8443/ns/obj>; rel=\"duplicate\"; pri=2"],
    Body := .ok "" }

/-! ## `director/cache_ads.go`

The store `serverAds` is a `ttlcache` keyed by `ServerAd.URL.String()`. It is
held here as the map from keys to the items set and not deleted, each with the
time-to-live it was set with; an expired item counts as removed, and the
extension of an item's life by `Get` is outside the model. Times are `Int`
nanoseconds. -/

/-- The fields of `server_structs.ServerAd` that `recordAd` reads or writes.
The coordinates and the I/O load are `float64` in the source and are only
copied, never computed with; they are held as integers. -/
structure ServerAd where
  Name : String
  /-- The text `sAd.URL.String()`. -/
  URL : String
  FromTopology : Bool
  DisableDirectorTest : Bool
  IOLoad : Int
  Latitude : Int
  Longitude : Int
  /-- The instant `sAd.Expiration`; `none` is the zero `time.Time`. -/
  Expiration : Option Int
  deriving DecidableEq

/-- The zero value of `server_structs.ServerAd`. -/
def ServerAd.zero : ServerAd :=
  { Name := "", URL := "", FromTopology := false, DisableDirectorTest := false,
    IOLoad := 0, Latitude := 0, Longitude := 0, Expiration := none }

/-- A `server_structs.NamespaceAdV2`, by its path. -/
structure NamespaceAdV2 where
  Path : String
  deriving DecidableEq

/-- Go `server_structs.Advertisement`. -/
structure Advertisement where
  ServerAd : ServerAd
  NamespaceAds : List NamespaceAdV2
  deriving DecidableEq

/-- An item of the store: the advertisement and the time-to-live given to
`Set`. -/
structure Item where
  value : Advertisement
  ttl : Int
  deriving DecidableEq

/-- The store `serverAds`. -/
abbrev ServerAds := String → Option Item

/-- The store after `serverAds.DeleteAll()`. -/
def ServerAds.empty : ServerAds := fun _ => none

/-- Go `time.Minute`, in nanoseconds. -/
def Minute : Int := 60 * Second

/-- The call `serverAds.Set(key, ad, ttl)`; a `ttl` of 0 (`ttlcache.DefaultTTL`)
stands for the 15 minutes the store was created with. -/
def ServerAds.set (serverAds : ServerAds) (key : String) (ad : Advertisement) (ttl : Int) :
    ServerAds :=
  fun k => if k = key then some ⟨ad, if ttl = 0 then 15 * Minute else ttl⟩ else serverAds k

/-- The call `serverAds.Delete(key)`. -/
def ServerAds.delete (serverAds : ServerAds) (key : String) : ServerAds :=
  fun k => if k = key then none else serverAds k

/-- What `recordAd` reads from outside: the clock, the configuration and the
result of the look-ups of `updateLatLong`. -/
structure DirectorEnv where
  /-- The instant `time.Now()`. -/
  now : Int
  /-- The parameter `Director.AdvertisementTTL`. -/
  AdvertisementTTL : Int
  /-- The latitude and longitude that `net.LookupIP` and `getLatLong` find for
  the host of the ad, or `none` when either fails. -/
  latLong : ServerAd → Option (Int × Int)

/-- Go `updateLatLong`, as the ad it leaves behind: on an error the ad is
unchanged. -/
def updateLatLong (env : DirectorEnv) (ad : ServerAd) : ServerAd :=
  match env.latLong ad with
  | some (lat, long) => { ad with Latitude := lat, Longitude := long }
  | none => ad

/-- Go `time.Until(t)`: the difference to now, kept within the range of a
`time.Duration`. -/
def timeUntil (now t : Int) : Int :=
  if t - now > 2 ^ 63 - 1 then 2 ^ 63 - 1
  else if t - now < -(2 ^ 63) then -(2 ^ 63)
  else t - now

/-- Go `strings.TrimPrefix(s, p)`. -/
def trimPrefix (s p : String) : String :=
  if hasPrefix s p then String.mk (s.data.drop p.length) else s

/-- The key `httpURL` of `recordAd`. -/
def httpURL (rawURL : String) : String :=
  if hasPrefix rawURL "https" then "http" ++ trimPrefix rawURL "https" else rawURL

/-- The key `httpsURL` of `recordAd`. -/
def httpsURL (rawURL : String) : String :=
  if hasPrefix rawURL "http://" then "https://" ++ trimPrefix rawURL "http://" else rawURL

/-- The look-up of `existing` in `recordAd`: the item under the http key, else
under the https key, else under the key of the ad itself. -/
def findExisting (serverAds : ServerAds) (rawURL : String) : Option Item :=
  match serverAds (httpURL rawURL) with
  | some item => some item
  | none =>
    match serverAds (httpsURL rawURL) with
    | some item => some item
    | none => serverAds rawURL

/-- The part of `recordAd` from the computation of `adTTL` on: the store after
it and the ad returned. The `stat` and health-test utilities that the source
sets up after `serverAds.Set` live in other maps and in goroutines and are not
part of the model; of that part only the `return` statements are kept. -/
def storeAd (env : DirectorEnv) (serverAds : ServerAds) (sAd : ServerAd)
    (namespaceAds : List NamespaceAdV2) : ServerAds × ServerAd :=
  let adTTL : Option Int :=
    match sAd.Expiration with
    | none => some (if env.AdvertisementTTL = 0 then 15 * Minute else env.AdvertisementTTL)
    | some t => if timeUntil env.now t ≤ 0 then none else some (timeUntil env.now t)
  match adTTL with
  | none => (serverAds, ServerAd.zero)
  | some ttl =>
    let serverAds1 := serverAds.set sAd.URL ⟨sAd, namespaceAds⟩ ttl
    if sAd.FromTopology then (serverAds1, sAd)
    else if sAd.DisableDirectorTest then (serverAds1, ServerAd.zero)
    else (serverAds1, sAd)

/-- Go `recordAd`: the store after the call and the `updatedAd` returned. -/
def recordAd (env : DirectorEnv) (serverAds : ServerAds) (sAd0 : ServerAd)
    (namespaceAds : List NamespaceAdV2) : ServerAds × ServerAd :=
  let sAd := updateLatLong env sAd0
  if sAd.URL = "" then (serverAds, ServerAd.zero)
  else
    match findExisting serverAds sAd.URL with
    | none => storeAd env serverAds sAd namespaceAds
    | some existing =>
      if sAd.FromTopology && !existing.value.ServerAd.FromTopology then
        (serverAds, ServerAd.zero)
      else
        let serverAds1 :=
          if !sAd.FromTopology && existing.value.ServerAd.FromTopology then
            serverAds.delete existing.value.ServerAd.URL
          else serverAds
        let sAd1 :=
          if !sAd.FromTopology && !existing.value.ServerAd.FromTopology then
            { sAd with IOLoad := existing.value.ServerAd.IOLoad }
          else sAd
        storeAd env serverAds1 sAd1 namespaceAds

/-! ### Concrete inputs for `recordAd` -/

/-- A director at instant 1000 s with an advertisement TTL of 15 minutes, whose
look-ups of coordinates fail. -/
def dirEnv : DirectorEnv :=
  { now := 1000 * Second, AdvertisementTTL := 15 * Minute, latLong := fun _ => none }

/-- A topology ad for a cache served over http. -/
def topoAdHttp : ServerAd :=
  { Name := "topo-cache", URL := "http://cache.example:8000",
    FromTopology := true, DisableDirectorTest := false, IOLoad := 0, Latitude := 0,
    Longitude := 0, Expiration := none }

/-- A topology ad for the same host served over https. -/
def topoAdHttps : ServerAd := { topoAdHttp with URL := "https://cache.example:8000" }

/-- A Pelican ad for the same host whose expiration, 999 s, is already past at
the instant of `dirEnv`. -/
def pelicanAdExpired : ServerAd :=
  { Name := "pelican-cache", URL := "https://cache.example:8000",
    FromTopology := false, DisableDirectorTest := false, IOLoad := 0, Latitude := 0,
    Longitude := 0, Expiration := some (999 * Second) }

/-- A Pelican ad that expires one hour after the instant of `dirEnv`. -/
def pelicanAdHour : ServerAd :=
  { pelicanAdExpired with Expiration := some (1000 * Second + 60 * Minute) }

/-- A Pelican ad with `DisableDirectorTest` set and no expiration. -/
def pelicanAdNoTest : ServerAd :=
  { pelicanAdExpired with DisableDirectorTest := true, Expiration := none }

/-- The namespace ads used with the ads above. -/
def nsAds : List NamespaceAdV2 := [⟨"/foo/bar"⟩]

/-! ## `client/main.go`: the end of `DoGet` -/

/-- A Go `error`, by what `errors.As` sees of it: its dynamic type, as far as
`DoGet` asks for it, and the errors it unwraps to. -/
inductive GoError where
  /-- A `*TransferErrors`, whose `Unwrap() []error` gives `errs`. -/
  | transferErrors (errs : List GoError)
  /-- A `*TransferAttemptError` with its text and the error it wraps, if any. -/
  | transferAttemptError (text : String) (inner : Option GoError)
  /-- An error of another type whose `Unwrap() error` gives `inner`, such as
  the result of `errors.Wrap(inner, text)`. -/
  | wrapped (text : String) (inner : GoError)
  /-- An error of another type whose `Unwrap() []error` gives `errs`. -/
  | joined (text : String) (errs : List GoError)
  /-- An error of another type that wraps nothing. -/
  | plain (text : String)

mutual
/-- The call `errors.As(err, &te)` for `te` a `*TransferErrors`: the first
`*TransferErrors` on the walk of `err`, by the errors it holds. -/
def asTransferErrors : GoError → Option (List GoError)
  | .transferErrors errs => some errs
  | .transferAttemptError _ (some inner) => asTransferErrors inner
  | .transferAttemptError _ none => none
  | .wrapped _ inner => asTransferErrors inner
  | .joined _ errs => asTransferErrorsList errs
  | .plain _ => none
/-- The walk of `errors.As` over the errors of an `Unwrap() []error`. -/
def asTransferErrorsList : List GoError → Option (List GoError)
  | [] => none
  | err :: errs =>
    match asTransferErrors err with
    | some te => some te
    | none => asTransferErrorsList errs
end

mutual
/-- The call `errors.As(err, &tae)` for `tae` a `*TransferAttemptError`: the
first `*TransferAttemptError` on the walk of `err`. -/
def asTransferAttemptError : GoError → Option GoError
  | .transferErrors errs => asTransferAttemptErrorList errs
  | .transferAttemptError text inner => some (.transferAttemptError text inner)
  | .wrapped _ inner => asTransferAttemptError inner
  | .joined _ errs => asTransferAttemptErrorList errs
  | .plain _ => none
/-- The walk of `errors.As` over the errors of an `Unwrap() []error`. -/
def asTransferAttemptErrorList : List GoError → Option GoError
  | [] => none
  | err :: errs =>
    match asTransferAttemptError err with
    | some tae => some tae
    | none => asTransferAttemptErrorList errs
end

/-- The call `errors.Wrap(err, message)` of `github.com/pkg/errors`, which is
`nil` for a `nil` error. -/
def errorsWrap (err : Option GoError) (message : String) : Option GoError :=
  err.map (GoError.wrapped message)

/-- The fields of `TransferResults` that `DoGet` reads. -/
structure TransferResults where
  TransferredBytes : Int
  Error : Option GoError

/-- The loop `for _, result := range transferResults` of `DoGet` on the
variables `success` and `err`. -/
def scanResults : List TransferResults → Bool × Option GoError → Bool × Option GoError
  | [], st => st
  | result :: rest, (success, err) =>
    if err.isNone && result.Error.isSome then scanResults rest (false, result.Error)
    else scanResults rest (success, err)

/-- The values of `success` and `err` in `DoGet` after the loop over the
results: `shutdownErr` is the error of `tc.Shutdown()` and `lookupErr` is
`tj.lookupErr`. -/
def doGetOutcome (transferResults : List TransferResults) (shutdownErr lookupErr : Option GoError) :
    Bool × Option GoError :=
  let start : Bool × Option GoError :=
    match shutdownErr with
    | none =>
      match lookupErr with
      | none => (true, none)
      | some e => (false, some e)
    | some e => (false, some e)
  scanResults transferResults start

/-- Go `DoGet` from `transferResults, err = tc.Shutdown()` on: what it returns
for the results and the error of the shutdown and for the look-up error of the
job. -/
def DoGet (transferResults : List TransferResults) (shutdownErr lookupErr : Option GoError) :
    List TransferResults × Option GoError :=
  let outcome := doGetOutcome transferResults shutdownErr lookupErr
  let success := outcome.1
  let err := outcome.2
  if !success then
    match err.bind asTransferErrors with
    | some te =>
      match te with
      | [first] =>
        match asTransferAttemptError first with
        | some tae => ([], some tae)
        | none => ([], errorsWrap err "failed to download file")
      | _ => ([], some (.transferErrors te))
    | none => ([], errorsWrap err "failed to download file")
  else (transferResults, err)

/-- The error of a failed attempt at a cache. -/
def attemptError : GoError :=
  .transferAttemptError "failed download from local-cache: server returned 404 Not Found" none

/-! ## `config/config.go` -/

/-- The server types of `server_structs` that `config.go` names. -/
inductive ServerType where
  | CacheType
  | LocalCacheType
  | OriginType
  | DirectorType
  | RegistryType
  | BrokerType
  deriving DecidableEq

/-- Go `wrapWithHttpsIfNeeded`. -/
def wrapWithHttpsIfNeeded (urlStr : String) : String :=
  if urlStr.length > 0 && !hasPrefix urlStr "http://" && !hasPrefix urlStr "https://" then
    "https://" ++ urlStr
  else urlStr

/-- Go `pelican_url.FederationDiscovery`. -/
structure FederationDiscovery where
  DiscoveryEndpoint : String
  DirectorEndpoint : String
  RegistryEndpoint : String
  JwksUri : String
  BrokerEndpoint : String
  deriving DecidableEq

/-- The zero value of `pelican_url.FederationDiscovery`. -/
def FederationDiscovery.zero : FederationDiscovery :=
  { DiscoveryEndpoint := "", DirectorEndpoint := "", RegistryEndpoint := "", JwksUri := "",
    BrokerEndpoint := "" }

/-- The fields of a `*url.URL` that `discoverFederationImpl` reads and writes. -/
structure FedURL where
  Host : String
  Path : String
  deriving DecidableEq

/-- What `discoverFederationImpl` reads from outside: the configuration, the
enabled servers, `net/url` and the discovery request. -/
structure FedEnv where
  /-- The parameter `Federation.DiscoveryUrl`. -/
  DiscoveryUrl : String
  /-- The parameter `Server.ExternalWebUrl`. -/
  ExternalWebUrl : String
  /-- The value of `viper.GetString("Federation.DirectorUrl")`. -/
  DirectorUrl : String
  /-- The value of `viper.GetString("Federation.RegistryUrl")`. -/
  RegistryUrl : String
  /-- The value of `viper.GetString("Federation.JwkUrl")`. -/
  JwkUrl : String
  /-- The value of `viper.GetString("Federation.BrokerUrl")`. -/
  BrokerUrl : String
  /-- The method `enabledServers.IsEnabled`. -/
  IsEnabled : ServerType → Bool
  /-- The function `url.Parse`, with the error text on failure. -/
  urlParse : String → Except String FedURL
  /-- The method `(*url.URL).String` of the parsed federation URL of the given
  text, after its host and path were set to those given. -/
  urlString : String → FedURL → String
  /-- The function `pelican_url.DiscoverFederation` on the federation URL of the
  given text, with the error text on failure. -/
  discoverFederation : String → FedURL → Except String FederationDiscovery

/-- The deferred function of `discoverFederationImpl`, run on every return.
Each conditional assignment of the source to a field of `fedInfo` is the
update of that field to the new value when the condition holds and to its own
value otherwise. -/
def fedDefaults (env : FedEnv) (fedInfo : FederationDiscovery) : FederationDiscovery :=
  let externalUrlStr := env.ExternalWebUrl
  let f1 : FederationDiscovery :=
    { fedInfo with
      DirectorEndpoint :=
        if fedInfo.DirectorEndpoint = "" ∧ env.IsEnabled .DirectorType = true then externalUrlStr
        else fedInfo.DirectorEndpoint }
  let f2 : FederationDiscovery :=
    { f1 with
      RegistryEndpoint :=
        if f1.RegistryEndpoint = "" ∧ env.IsEnabled .RegistryType = true then externalUrlStr
        else f1.RegistryEndpoint }
  let f3 : FederationDiscovery :=
    { f2 with
      JwksUri :=
        if f2.JwksUri = "" ∧ env.IsEnabled .DirectorType = true then
          externalUrlStr ++ "/.well-known/issuer.jwks"
        else f2.JwksUri }
  let f4 : FederationDiscovery :=
    { f3 with
      BrokerEndpoint :=
        if f3.BrokerEndpoint = "" ∧ env.IsEnabled .BrokerType = true then externalUrlStr
        else f3.BrokerEndpoint }
  let f5 : FederationDiscovery :=
    { f4 with
      DiscoveryEndpoint :=
        if f4.DiscoveryEndpoint = "" ∧ env.IsEnabled .DirectorType = true then
          f4.DirectorEndpoint
        else f4.DiscoveryEndpoint }
  { f5 with
    DirectorEndpoint := wrapWithHttpsIfNeeded f5.DirectorEndpoint,
    RegistryEndpoint := wrapWithHttpsIfNeeded f5.RegistryEndpoint,
    JwksUri := wrapWithHttpsIfNeeded f5.JwksUri,
    BrokerEndpoint := wrapWithHttpsIfNeeded f5.BrokerEndpoint }

/-- The federation URL after `discoverFederationImpl` has moved a path without
a host into the host. -/
def hostFromPath (federationUrl : FedURL) : FedURL :=
  if federationUrl.Path.length > 0 ∧ federationUrl.Host.length = 0 then
    { Host := federationUrl.Path, Path := "" }
  else federationUrl

/-- The value of `metadata` in `discoverFederationImpl`: the zero value when
the federation URL is unset or is the server's own external web URL, and what
`pelican_url.DiscoverFederation` returns otherwise. -/
def discoverOrSkip (env : FedEnv) (federationStr : String) (federationUrl : FedURL) :
    Except String FederationDiscovery :=
  if federationStr = "" then .ok FederationDiscovery.zero
  else if federationStr = env.ExternalWebUrl then .ok FederationDiscovery.zero
  else env.discoverFederation federationStr federationUrl

/-- The body of `discoverFederationImpl`: the values of `fedInfo` and `err` at
its `return`, before the deferred function runs. -/
def discoverFederationBody (env : FedEnv) : FederationDiscovery × Option String :=
  let federationStr := env.DiscoveryUrl
  let fedInfo : FederationDiscovery :=
    { FederationDiscovery.zero with
      DirectorEndpoint := env.DirectorUrl, RegistryEndpoint := env.RegistryUrl,
      JwksUri := env.JwkUrl, BrokerEndpoint := env.BrokerUrl }
  if fedInfo.DirectorEndpoint ≠ "" ∧ fedInfo.RegistryEndpoint ≠ "" ∧ fedInfo.JwksUri ≠ ""
      ∧ fedInfo.BrokerEndpoint ≠ "" then
    if federationStr ≠ "" then ({ fedInfo with DiscoveryEndpoint := federationStr }, none)
    else (fedInfo, none)
  else
    let federationStr := wrapWithHttpsIfNeeded federationStr
    match env.urlParse federationStr with
    | .error e => (fedInfo, some ("invalid federation value " ++ federationStr ++ ":: " ++ e))
    | .ok federationUrl =>
      if federationUrl.Path ≠ "" ∧ federationUrl.Host ≠ "" then
        (fedInfo, some ("Invalid federation discovery url is set. No path allowed for federation discovery url. Provided url: " ++ federationStr))
      else
        let federationUrl := hostFromPath federationUrl
        let fedInfo := { fedInfo with DiscoveryEndpoint := env.urlString federationStr federationUrl }
        match discoverOrSkip env federationStr federationUrl with
        | .error e =>
          (fedInfo, some ("invalid federation value (" ++ federationStr ++ "): " ++ e))
        | .ok metadata =>
          let f1 : FederationDiscovery :=
            { fedInfo with
              DirectorEndpoint :=
                if fedInfo.DirectorEndpoint = "" then metadata.DirectorEndpoint
                else fedInfo.DirectorEndpoint }
          let f2 : FederationDiscovery :=
            { f1 with
              RegistryEndpoint :=
                if f1.RegistryEndpoint = "" then metadata.RegistryEndpoint
                else f1.RegistryEndpoint }
          let f3 : FederationDiscovery :=
            { f2 with JwksUri := if f2.JwksUri = "" then metadata.JwksUri else f2.JwksUri }
          let f4 : FederationDiscovery :=
            { f3 with
              BrokerEndpoint :=
                if f3.BrokerEndpoint = "" ∧ metadata.BrokerEndpoint ≠ "" then
                  metadata.BrokerEndpoint
                else f3.BrokerEndpoint }
          (f4, none)

/-- Go `discoverFederationImpl`: the pair `(fedInfo, err)`. -/
def discoverFederationImpl (env : FedEnv) : FederationDiscovery × Option String :=
  let out := discoverFederationBody env
  (fedDefaults env out.1, out.2)

/-- A director that is not a registry, with nothing configured for the
federation. -/
def directorOnly : FedEnv :=
  { DiscoveryUrl := "", ExternalWebUrl := "https://director.example:8444", DirectorUrl := "",
    RegistryUrl := "", JwkUrl := "", BrokerUrl := "",
    IsEnabled := fun t => t == .DirectorType,
    urlParse := fun s => .ok ⟨s, ""⟩,
    urlString := fun _ u => u.Host ++ u.Path,
    discoverFederation := fun _ _ => .error "no such host" }

/-- The first of three texts that is not empty, else the last. -/
def firstSet (a b c : String) : String :=
  if a ≠ "" then a else if b ≠ "" then b else c

/-- The configuration that `GetServerIssuerURL` reads, and writes in part. -/
structure IssuerConfig where
  /-- The parameter `Server.IssuerUrl`. -/
  IssuerUrl : String
  /-- The parameter `Server.IssuerHostname`. -/
  IssuerHostname : String
  /-- The parameter `Server.IssuerPort`. -/
  IssuerPort : Int
  /-- The parameter `Server.ExternalWebUrl`. -/
  ExternalWebUrl : String
  deriving DecidableEq

/-- What a call of `GetServerIssuerURL` leaves: the pair `(issuerUrl, err)` and
the configuration. -/
structure IssuerResult where
  issuerUrl : String
  err : Option String
  config : IssuerConfig
  deriving DecidableEq

/-- The deferred function of `GetServerIssuerURL`: without an error, an empty
`Server.IssuerUrl` is set to the URL returned. -/
def populateIssuerUrl (cfg : IssuerConfig) (issuerUrl : String) (err : Option String) :
    IssuerResult :=
  if err = none ∧ cfg.IssuerUrl = "" then ⟨issuerUrl, err, { cfg with IssuerUrl := issuerUrl }⟩
  else ⟨issuerUrl, err, cfg⟩

/-- Go `GetServerIssuerURL`; `parseError` gives the error of `url.Parse`, or
`none` when the text parses. -/
def GetServerIssuerURL (parseError : String → Option String) (cfg : IssuerConfig) :
    IssuerResult :=
  if cfg.IssuerUrl ≠ "" then
    match parseError cfg.IssuerUrl with
    | some e =>
      populateIssuerUrl cfg "" (some ("failed to parse '" ++ cfg.IssuerUrl
        ++ "' as issuer URL from config param 'Server.IssuerUrl': " ++ e))
    | none => populateIssuerUrl cfg cfg.IssuerUrl none
  else if cfg.IssuerHostname ≠ "" then
    if cfg.IssuerPort = 0 then
      populateIssuerUrl cfg "" (some ("if 'Server.IssuerHostname' is configured, you must also "
        ++ "configure a valid port via 'Server.IssuerPort'"))
    else
      let issuerUrl := "https://" ++ cfg.IssuerHostname ++ ":" ++ toString cfg.IssuerPort
      match parseError issuerUrl with
      | some e =>
        populateIssuerUrl cfg "" (some ("failed to parse '" ++ issuerUrl
          ++ "' as issuer URL from config params 'Server.IssuerHostname' and "
          ++ "'Server.IssuerPort': " ++ e))
      | none => populateIssuerUrl cfg issuerUrl none
  else
    let issuerUrl := cfg.ExternalWebUrl
    match parseError issuerUrl with
    | some e =>
      populateIssuerUrl cfg "" (some ("failed to parse '" ++ issuerUrl
        ++ "' as the issuer URL generated from config param 'Server.ExternalWebUrl': " ++ e))
    | none => populateIssuerUrl cfg issuerUrl none

/-- A configuration with an issuer host and port and no issuer URL. -/
def issuerByHost : IssuerConfig :=
  { IssuerUrl := "", IssuerHostname := "issuer.example", IssuerPort := 8443,
    ExternalWebUrl := "https://origin.example:8444" }

/-- The order `<=` of Go strings on character lists: lexicographic, character
by character. -/
def lexLe : List Char → List Char → Bool
  | [], _ => true
  | _ :: _, [] => false
  | a :: as, b :: bs => decide (a.toNat < b.toNat) || (a.toNat == b.toNat && lexLe as bs)

/-- The order `<=` of Go strings. -/
def strLe (a b : String) : Bool := lexLe a.data b.data

/-- The call `sort.Strings(servers)`, as the stable insertion sort that Go runs
on a slice of at most 12 elements. -/
def sortStrings (servers : List String) : List String :=
  servers.insertionSort (fun a b => strLe a b = true)

/-- Go `GetEnabledServerString`; `name` is the method `ServerType.String` and
`IsEnabled` is `enabledServers.IsEnabled`. -/
def GetEnabledServerString (name : ServerType → String) (IsEnabled : ServerType → Bool)
    (lowerCase : Bool) : List String :=
  let servers : List String := []
  let servers := if IsEnabled .CacheType then servers ++ [name .CacheType] else servers
  let servers := if IsEnabled .LocalCacheType then servers ++ [name .LocalCacheType] else servers
  let servers := if IsEnabled .OriginType then servers ++ [name .OriginType] else servers
  let servers := if IsEnabled .DirectorType then servers ++ [name .DirectorType] else servers
  let servers := if IsEnabled .RegistryType then servers ++ [name .RegistryType] else servers
  let servers := sortStrings servers
  if lowerCase then servers.map strToLower else servers

/-- Names for the server types, in agreement with the lower-case page names
"director", "registry", "origin" and "cache" of `web_ui/ui.go`. -/
def serverTypeName : ServerType → String
  | .CacheType => "Cache"
  | .LocalCacheType => "LocalCache"
  | .OriginType => "Origin"
  | .DirectorType => "Director"
  | .RegistryType => "Registry"
  | .BrokerType => "Broker"

/-- A process in which only the broker is enabled. -/
def brokerOnly : ServerType → Bool := fun t => t == .BrokerType

/-- A process in which the origin, the cache and the registry are enabled. -/
def originCacheRegistry : ServerType → Bool :=
  fun t => t == .OriginType || t == .CacheType || t == .RegistryType

/-- A key of a `viper` instance, by the layers that `Get` looks through: the
value given to `Set`, the value found in the flags, the environment, the
configuration file or the key-value store, and the value given to
`SetDefault`. -/
structure ViperKey (α : Type) where
  override : Option α
  configured : Option α
  default : Option α

/-- The value that `viper` returns for a key: the first layer that holds one,
else the zero value of the type. -/
def ViperKey.get {α : Type} (zero : α) (key : ViperKey α) : α :=
  match key.override with
  | some x => x
  | none =>
    match key.configured with
    | some x => x
    | none =>
      match key.default with
      | some x => x
      | none => zero

/-- The keys of the global `viper` instance that the end of
`SetClientDefaults` reads and writes, with the integer already cast by
`GetInt`. -/
structure ClientViper where
  /-- The key `Client.IsPlugin`. -/
  IsPlugin : ViperKey Bool
  /-- The key `Client.DirectorRetries`. -/
  DirectorRetries : ViperKey Int

/-- A product of Go `int` values on a 64-bit platform: the integer taken into
the range from `-2^63` to `2^63 - 1`. -/
def wrapInt64 (x : Int) : Int := (x + 2 ^ 63) % 2 ^ 64 - 2 ^ 63

/-- Go `SetClientDefaults`, called on the global `viper` instance, from
`v.SetDefault(param.Client_IsPlugin.GetName(), false)` to the end of the
handling of `Client.DirectorRetries`. -/
def SetClientDefaults (v : ClientViper) : ClientViper :=
  let v1 : ClientViper := { v with IsPlugin := { v.IsPlugin with default := some false } }
  let v2 : ClientViper :=
    { v1 with DirectorRetries := { v1.DirectorRetries with default := some 5 } }
  let v3 : ClientViper :=
    if v2.IsPlugin.get false then
      { v2 with
        DirectorRetries :=
          { v2.DirectorRetries with override := some (wrapInt64 (2 * v2.DirectorRetries.get 0)) } }
    else v2
  if v3.DirectorRetries.get 0 < 1 then
    { v3 with DirectorRetries := { v3.DirectorRetries with override := some 5 } }
  else v3

/-- A configuration file that sets `Client.DirectorRetries` to 0. -/
def zeroRetries : ClientViper :=
  { IsPlugin := ⟨none, none, none⟩, DirectorRetries := ⟨none, some 0, none⟩ }

/-! ## `client/main.go`: `DoCopy` -/

/-- The parts of a Go `*url.URL` that `DoCopy` reads. -/
structure CopyURL where
  /-- The field `Scheme`. -/
  Scheme : String
  /-- The field `Path`. -/
  Path : String
  /-- The text that the method `String()` gives. -/
  Text : String
  deriving DecidableEq

/-- What `DoCopy` ends with: an error of its own, or the call it returns the
result of. -/
inductive Copy where
  /-- The `return nil, err` after a failed `url.Parse`, or the error made by
  `errors.New`. -/
  | failed (err : String)
  /-- The call `DoPut(ctx, localPath, remotePath, recursive, options...)`. -/
  | put (localPath remotePath : String) (recursive : Bool)
  /-- The call `DoGet(ctx, remotePath, localPath, recursive, options...)`. -/
  | get (remotePath localPath : String) (recursive : Bool)
  deriving DecidableEq

/-- Go `DoCopy`; `parse` is `url.Parse`. -/
def DoCopy (parse : String → Except String CopyURL) (sourceFile destination : String)
    (recursive : Bool) : Copy :=
  match parse destination with
  | .error err => .failed err
  | .ok parsedDest =>
    match parse sourceFile with
    | .error err => .failed err
    | .ok parsedSrc =>
      if parsedDest.Scheme ≠ "" ∧ (parsedSrc.Scheme = "" ∨ parsedSrc.Scheme = "file") then
        .put parsedSrc.Path parsedDest.Text recursive
      else if (parsedDest.Scheme = "" ∨ parsedDest.Scheme = "file") ∧ parsedSrc.Scheme ≠ "" then
        .get parsedSrc.Text parsedDest.Path recursive
      else
        .failed ("unable to determine direction of transfer.  "
          ++ "Both source and destination are either local or remote")

/-- What `url.Parse` gives for the texts used as inputs of `DoCopy` here: a
path without a scheme, two `file` URLs and two `pelican` URLs. Every other text
is left as an error. -/
def parseCopyURL (s : String) : Except String CopyURL :=
  if s = "/tmp/in.txt" then .ok ⟨"", "/tmp/in.txt", "/tmp/in.txt"⟩
  else if s = "/tmp/out.txt" then .ok ⟨"", "/tmp/out.txt", "/tmp/out.txt"⟩
  else if s = "file:///tmp/in.txt" then .ok ⟨"file", "/tmp/in.txt", "file:///tmp/in.txt"⟩
  else if s = "file:///tmp/out.txt" then .ok ⟨"file", "/tmp/out.txt", "file:///tmp/out.txt"⟩
  else if s = "pelican://fed.example/ns/obj" then
    .ok ⟨"pelican", "/ns/obj", "pelican://fed.example/ns/obj"⟩
  else .error "parse error"

/-! ## `config/config.go`: the start of `InitServer` -/

/-- The keys of the global `viper` instance that `InitServer` reads and writes
between `setEnabledServer` and `SetServerDefaults`. -/
structure ServerViper where
  /-- The key `Origin.StorageType`. -/
  StorageType : ViperKey String
  /-- The key `Origin.SelfTest`. -/
  SelfTest : ViperKey Bool
  /-- The key `Origin.DirectorTest`. -/
  DirectorTest : ViperKey Bool

/-- Go `InitServer`, from after `setEnabledServer(currentServers)` to before the
call of `SetServerDefaults`: the block that turns the origin's tests off.
`IsEnabled` is `currentServers.IsEnabled`. -/
def InitServer (IsEnabled : ServerType → Bool) (v : ServerViper) : ServerViper :=
  if IsEnabled .OriginType && v.StorageType.get "" != "posix" then
    { v with
      SelfTest :=
        { v.SelfTest with
          override := if v.SelfTest.get false then some false else v.SelfTest.override },
      DirectorTest :=
        { v.DirectorTest with
          override :=
            if v.DirectorTest.get false then some false else v.DirectorTest.override } }
  else v

/-- An origin with an S3 backend whose configuration file turns both tests
on. -/
def s3Origin : ServerViper :=
  { StorageType := ⟨none, some "s3", none⟩, SelfTest := ⟨none, some true, none⟩,
    DirectorTest := ⟨none, some true, none⟩ }

/-- An origin with a POSIX backend whose configuration file turns both tests
on. -/
def posixOrigin : ServerViper := { s3Origin with StorageType := ⟨none, some "posix", none⟩ }

/-! ## Concrete inputs for the errors of `queryDirector` and for `Link` headers -/

/-- The 404 of a director that found the object at no cache, as plain text. -/
def notAtAnyCache : Response :=
  { StatusCode := 404, Server := "pelican/7.10.0", ContentType := "text/plain", Link := [],
    Body := .ok "Object not found at any cache" }

/-- A director that answers every request with `notAtAnyCache`. -/
def emptyCaches : World := { director := fun _ => .response notAtAnyCache, float32 := fun _ => 0 }

/-- A 500 of a director that claims to be JSON and is not. -/
def jsonServerError : Response :=
  { StatusCode := 500, Server := "pelican/7.10.0", ContentType := "application/json", Link := [],
    Body := .ok "upstream timed out" }

/-- A director that answers every request with `jsonServerError`. -/
def failingDirector : World :=
  { director := fun _ => .response jsonServerError, float32 := fun _ => 0 }

/-- A redirect whose entry ends with a `pri` segment that has no value. -/
def redirectNoPri : Response :=
  { StatusCode := 307, Server := "pelican/7.10.0", ContentType := "",
    Link := ["<https://cache-a.example:8443/ns/obj>; rel=\"duplicate\"; pri"],
    Body := .ok "" }

/-- A redirect whose `Link` header is a lone opening angle bracket. -/
def redirectLoneBracket : Response :=
  { StatusCode := 307, Server := "pelican/7.10.0", ContentType := "", Link := ["<"],
    Body := .ok "" }

/-- The 429 of a Pelican director that limits the rate of requests. -/
def throttled : Response :=
  { StatusCode := 429, Server := "pelican/7.10.0", ContentType := "text/plain", Link := [],
    Body := .ok "Too Many Requests" }

/-- A director that answers every request with `throttled`, with every random
draw equal to zero. -/
def busyDirector : World := { director := fun _ => .response throttled, float32 := fun _ => 0 }

/-- A plugin whose configuration sets `Client.DirectorRetries` to
`-(2^62) - 1`. -/
def pluginBelowRange : ClientViper :=
  { IsPlugin := ⟨none, some true, none⟩,
    DirectorRetries := ⟨none, some (-(2 ^ 62) - 1), none⟩ }

/-! ## Lemmas on traces and on the retry loop -/

theorem requestsOf_append (a b : List Event) :
    requestsOf (a ++ b) = requestsOf a ++ requestsOf b := by
  induction a with
  | nil => rfl
  | cons e es ih => cases e <;> simp [requestsOf, ih]

theorem sleepsOf_append (a b : List Event) :
    sleepsOf (a ++ b) = sleepsOf a ++ sleepsOf b := by
  induction a with
  | nil => rfl
  | cons e es ih => cases e <;> simp [sleepsOf, ih]

/-- One iteration sends at most one request. -/
theorem attempt_requests_le (cfg : Config) (lib : Lib) (w : World) (verb url token : String)
    (idx : Nat) (cur : Cursor) :
    (requestsOf (attempt cfg lib w verb url token idx cur).events).length ≤ 1 := by
  simp only [attempt]
  repeat' split
  all_goals simp [requestsOf]

/-- A run of the loop with `more` iterations after the current one sends at
most `more + 1` requests. -/
theorem retryLoop_requests_le (cfg : Config) (lib : Lib) (w : World) (verb url token : String)
    (more idx : Nat) (cur : Cursor) :
    (requestsOf (retryLoop cfg lib w verb url token more idx cur).events).length ≤ more + 1 := by
  induction more generalizing idx cur with
  | zero =>
    have h := attempt_requests_le cfg lib w verb url token idx cur
    unfold retryLoop
    split <;> simp_all
  | succ k ih =>
    have h := attempt_requests_le cfg lib w verb url token idx cur
    unfold retryLoop
    split
    · simp_all; omega
    · simp_all; omega
    · rename_i evs cur1 resp body fd heq
      have h2 := ih (idx + 1) cur1
      simp only [requestsOf_append, List.length_append]
      simp [heq] at h
      omega

/-- The loop of `queryDirector` is entered with `numRetries - 1` iterations
after the first, where `numRetries` is the configured value or 1 below 1. -/
theorem numRetries_toNat (cfg : Config) :
    (numRetries cfg - 1).toNat + 1 = (max 1 cfg.DirectorRetries).toNat := by
  unfold numRetries
  split <;> omega

/-- A query with a verb other than DELETE runs one retry loop. -/
theorem queryDirector_requests_le_of_ne (cfg : Config) (lib : Lib) (w : World) (verb : String)
    (pUrl : PelicanURL) (token : String) (cur : Cursor) (hne : verb ≠ "DELETE") :
    (requestsOf (queryDirector cfg lib w verb pUrl token cur).events).length
      ≤ (max 1 cfg.DirectorRetries).toNat := by
  have hn := numRetries_toNat cfg
  rw [queryDirector]
  split
  · simp [requestsOf]
  · rename_i url _
    have hl := retryLoop_requests_le cfg lib w verb url token (numRetries cfg - 1).toNat 0 cur
    simp only []
    repeat' split
    all_goals first | omega | simp_all

/-! ## Lemmas on the requests of a query -/

/-- Every request of one iteration is the request of the verb, URL and token. -/
theorem attempt_requests_eq (cfg : Config) (lib : Lib) (w : World) (verb url token : String)
    (idx : Nat) (cur : Cursor) :
    ∀ req ∈ requestsOf (attempt cfg lib w verb url token idx cur).events,
      req = newRequest cfg verb url token := by
  simp only [attempt]
  repeat' split
  all_goals simp [requestsOf]

/-- Every request of a run of the loop is the request of the verb, URL and
token. -/
theorem retryLoop_requests_eq (cfg : Config) (lib : Lib) (w : World) (verb url token : String)
    (more idx : Nat) (cur : Cursor) :
    ∀ req ∈ requestsOf (retryLoop cfg lib w verb url token more idx cur).events,
      req = newRequest cfg verb url token := by
  induction more generalizing idx cur with
  | zero =>
    have h := attempt_requests_eq cfg lib w verb url token idx cur
    unfold retryLoop
    split <;> (rename_i heq; rw [heq] at h; exact h)
  | succ k ih =>
    have h := attempt_requests_eq cfg lib w verb url token idx cur
    unfold retryLoop
    split
    · rename_i heq; rw [heq] at h; exact h
    · rename_i heq; rw [heq] at h; exact h
    · rename_i evs cur1 resp body fd heq
      have h2 := ih (idx + 1) cur1
      rw [heq] at h
      intro req hreq
      simp only [requestsOf_append, List.mem_append] at hreq
      rcases hreq with hreq | hreq
      · exact h req hreq
      · exact h2 req hreq

/-- A query with a verb other than DELETE sends only requests with that verb,
to the one request URL, with the one token. -/
theorem queryDirector_requests_eq_of_ne (cfg : Config) (lib : Lib) (w : World) (verb : String)
    (pUrl : PelicanURL) (token : String) (cur : Cursor) (url : String)
    (hurl : lib.resourceUrl pUrl = .ok url) (hne : verb ≠ "DELETE") :
    ∀ req ∈ requestsOf (queryDirector cfg lib w verb pUrl token cur).events,
      req = newRequest cfg verb url token := by
  have hl := retryLoop_requests_eq cfg lib w verb url token (numRetries cfg - 1).toNat 0 cur
  rw [queryDirector, hurl]
  simp only []
  repeat' split
  all_goals first | exact hl | simp_all

/-! ## Lemmas on the iterations and the sleeps of the loop -/

/-- What one iteration does on a readable response, with the server header
checked: it sleeps and asks for another iteration exactly in the two retry
cases, and stops otherwise. -/
theorem attempt_response (cfg : Config) (lib : Lib) (w : World) (verb url token : String)
    (idx : Nat) (cur : Cursor) (resp : Response) (body : String)
    (hreq : lib.newRequest verb url = .ok ())
    (hrep : w.director cur.sent = .response resp)
    (hbody : resp.Body = .ok body) :
    attempt cfg lib w verb url token idx cur =
      if (fromPelican cfg resp = false
            ∧ (resp.StatusCode = 404 ∨ resp.StatusCode = 500 ∨ resp.StatusCode = 502))
          ∨ (fromPelican cfg resp = true ∧ resp.StatusCode = 429) then
        ⟨[.request (newRequest cfg verb url token), .sleep (backoff idx (w.float32 cur.drawn))],
          ⟨cur.sent + 1, cur.drawn + 1⟩, .again resp body (fromPelican cfg resp)⟩
      else
        ⟨[.request (newRequest cfg verb url token)], ⟨cur.sent + 1, cur.drawn⟩,
          .stop resp body (fromPelican cfg resp)⟩ := by
  simp only [attempt, hreq, hrep, hbody]
  cases hf : fromPelican cfg resp <;> simp
  · by_cases h1 : resp.StatusCode = 404 <;> by_cases h2 : resp.StatusCode = 500 <;>
      by_cases h3 : resp.StatusCode = 502 <;> simp [h1, h2, h3]

/-- The sleeps of one iteration: none unless the iteration asks for another
one, and then the back-off of its index with the next random draw. -/
theorem attempt_sleeps (cfg : Config) (lib : Lib) (w : World) (verb url token : String)
    (idx : Nat) (cur : Cursor) :
    (sleepsOf (attempt cfg lib w verb url token idx cur).events = []
        ∧ ∀ resp body fd, (attempt cfg lib w verb url token idx cur).value ≠ .again resp body fd)
      ∨ (sleepsOf (attempt cfg lib w verb url token idx cur).events
            = [backoff idx (w.float32 cur.drawn)]
          ∧ (attempt cfg lib w verb url token idx cur).cursor.drawn = cur.drawn + 1) := by
  simp only [attempt]
  repeat' split
  all_goals simp [sleepsOf]

/-- The sleeps of a run of the loop entered at iteration `idx`: the back-offs of
the iterations `idx`, `idx + 1`, ... up to some iteration, each with its own
random draw. -/
theorem retryLoop_sleeps (cfg : Config) (lib : Lib) (w : World) (verb url token : String)
    (more idx : Nat) (cur : Cursor) :
    ∃ n, n ≤ more + 1 ∧ sleepsOf (retryLoop cfg lib w verb url token more idx cur).events
      = (List.range n).map (fun a => backoff (idx + a) (w.float32 (cur.drawn + a))) := by
  induction more generalizing idx cur with
  | zero =>
    rcases attempt_sleeps cfg lib w verb url token idx cur with ⟨h, _⟩ | ⟨h, _⟩
    · refine ⟨0, by omega, ?_⟩
      unfold retryLoop
      split <;> simp_all
    · refine ⟨1, by omega, ?_⟩
      unfold retryLoop
      split <;> simp_all [List.range_succ]
  | succ k ih =>
    rcases attempt_sleeps cfg lib w verb url token idx cur with ⟨h, hne⟩ | ⟨h, hd⟩
    · refine ⟨0, by omega, ?_⟩
      unfold retryLoop
      split
      · simp_all
      · simp_all
      · rename_i evs cur1 resp body fd heq
        exact absurd (by rw [heq]) (hne resp body fd)
    · unfold retryLoop
      split
      · exact ⟨1, by omega, by simp_all [List.range_succ]⟩
      · exact ⟨1, by omega, by simp_all [List.range_succ]⟩
      · rename_i evs cur1 resp body fd heq
        obtain ⟨n, hn, hs⟩ := ih (idx + 1) cur1
        refine ⟨n + 1, by omega, ?_⟩
        rw [heq] at h hd
        simp only at h hd
        simp only [sleepsOf_append, h, hs, hd, List.range_succ_eq_map, List.map_cons,
          List.map_map, List.singleton_append, Nat.add_zero]
        refine congrArg _ (List.map_congr_left ?_)
        intro a _
        have e1 : idx + 1 + a = idx + (a + 1) := by omega
        have e2 : cur.drawn + 1 + a = cur.drawn + (a + 1) := by omega
        simp only [Function.comp, Nat.succ_eq_add_one, e1, e2]

/-! ## Lemmas on the `float32` jitter -/

theorem excessBits_le (j : Nat) :
    ∀ (fuel n : Nat), n < 2 ^ (24 + j) → excessBits n fuel ≤ j := by
  induction j with
  | zero =>
    intro fuel n hn
    cases fuel with
    | zero => simp [excessBits]
    | succ f => simp only [excessBits]; rw [if_pos hn]
  | succ j ih =>
    intro fuel n hn
    cases fuel with
    | zero => simp [excessBits]
    | succ f =>
      simp only [excessBits]
      split
      · omega
      · have h2 : n / 2 < 2 ^ (24 + j) := by
          have : 2 ^ (24 + (j + 1)) = 2 * 2 ^ (24 + j) := by ring
          omega
        have := ih f (n / 2) h2
        omega

theorem le_excessBits (j : Nat) :
    ∀ (fuel n : Nat), 2 ^ (23 + j) ≤ n → j ≤ fuel → j ≤ excessBits n fuel := by
  induction j with
  | zero => intro fuel n _ _; omega
  | succ j ih =>
    intro fuel n hn hf
    cases fuel with
    | zero => omega
    | succ f =>
      have e : 2 ^ (23 + (j + 1)) = 2 * 2 ^ (23 + j) := by ring
      have e24 : 2 ^ 24 ≤ 2 ^ (23 + (j + 1)) := Nat.pow_le_pow_right (by norm_num) (by omega)
      simp only [excessBits]
      rw [if_neg (by omega)]
      have := ih f (n / 2) (by omega) (by omega)
      omega

/-- A `float32` below 1 is at most `1 - 2^-24`. -/
theorem float32_lt_one (m : Nat) (hf : isFloat32 m = true) (hlt : m < 2 ^ 149) :
    m ≤ 2 ^ 149 - 2 ^ 125 := by
  by_cases h : m < 2 ^ 148
  · norm_num at h ⊢; omega
  · have hk : 125 ≤ excessBits m m := by
      apply le_excessBits 125 m m
      · norm_num at h ⊢; omega
      · norm_num at h ⊢; omega
    have hd : 2 ^ excessBits m m ∣ m := by
      simp only [isFloat32, beq_iff_eq] at hf
      exact Nat.dvd_of_mod_eq_zero hf
    have hd2 : 2 ^ 125 ∣ m := Dvd.dvd.trans (Nat.pow_dvd_pow 2 hk) hd
    obtain ⟨c, hc⟩ := hd2
    norm_num at hc hlt h ⊢
    omega

/-- Rounding to a `float32` moves a value up by at most half a unit in the
last place. -/
theorem roundFloat32_le (n : Nat) : 2 * roundFloat32 n ≤ 2 * n + 2 ^ excessBits n n := by
  simp only [roundFloat32]
  generalize 2 ^ excessBits n n = p
  have hdm := Nat.div_add_mod n p
  have hmul : (n / p + 1) * p = p * (n / p) + p := by ring
  have hmul2 : n / p * p = p * (n / p) := by ring
  split
  · rename_i hc
    rw [hmul]
    rcases hc with hc | ⟨hc, _⟩ <;> omega
  · rw [hmul2]; omega

/-- The jitter: a `float32` in `[0, 1)` times 1000, as a `float32`, truncates
to at most 999. -/
theorem jitter_lt (m : Nat) (hf : isFloat32 m = true) (hlt : m < 2 ^ 149) :
    truncate (roundFloat32 (m * 1000)) ≤ 999 := by
  have h1 := float32_lt_one m hf hlt
  have h2 := roundFloat32_le (m * 1000)
  have h3 : excessBits (m * 1000) (m * 1000) ≤ 135 := by
    apply excessBits_le
    norm_num at hlt ⊢; omega
  have h4 : 2 ^ excessBits (m * 1000) (m * 1000) ≤ 2 ^ 135 :=
    Nat.pow_le_pow_right (by norm_num) h3
  have h5 : roundFloat32 (m * 1000) < 2 ^ 149 * 1000 := by
    norm_num at h1 h4 ⊢; omega
  have h6 : roundFloat32 (m * 1000) / 2 ^ 149 < 1000 := Nat.div_lt_of_lt_mul h5
  simp only [truncate]
  omega

/-- The back-off of iteration `idx`: `3·idx + 3` seconds plus a jitter of at
least 0 and less than one second. -/
theorem backoff_bounds (idx m : Nat) (hf : isFloat32 m = true) (hlt : m < 2 ^ 149) :
    ∃ jitter : Int, 0 ≤ jitter ∧ jitter < Second
      ∧ backoff idx m = (3 * (idx : Int) + 3) * Second + jitter := by
  refine ⟨truncate (roundFloat32 (m * 1000)) * Millisecond, ?_, ?_, rfl⟩
  · have : 0 ≤ truncate (roundFloat32 (m * 1000)) := Int.ofNat_nonneg _
    simp only [Millisecond]; omega
  · have := jitter_lt m hf hlt
    simp only [Millisecond, Second]; omega

/-- The back-off fits the 64-bit `time.Duration` on every iteration below
3 074 457 344, so that the unbounded integers of `backoff` agree with the
machine arithmetic of the source there. -/
theorem backoff_lt_int64 (idx m : Nat) (hf : isFloat32 m = true) (hlt : m < 2 ^ 149)
    (hidx : idx < 3074457344) : 0 ≤ backoff idx m ∧ backoff idx m < 2 ^ 63 := by
  obtain ⟨jitter, h0, h1, hb⟩ := backoff_bounds idx m hf hlt
  rw [hb]
  simp only [Second] at *
  constructor <;> omega

/-! ## C1: number of requests of one call -/

/-- C1, as stated, fails: with `Client.DirectorRetries = 1`, a DELETE query
answered by 404 "404 page not found" sends two requests, the DELETE and then
the PUT of the fallback. -/
theorem queryDirector_requests_counterexample :
    cfgOne.DirectorRetries = 1 ∧
    (requestsOf (queryDirector cfgOne libPlain oldDirector "DELETE" objUrl "" ⟨0, 0⟩).events).map
        (fun r => r.Method) = ["DELETE", "PUT"] := by
  refine ⟨rfl, ?_⟩
  simp [queryDirector]
  decide

/-- C1, amended: one call to `queryDirector` sends at most
`Client.DirectorRetries` requests (at most one when the configured value is
below 1) for a verb other than DELETE, and at most twice that many for DELETE,
whose PUT fallback runs the retry loop a second time. -/
theorem queryDirector_requests_le (cfg : Config) (lib : Lib) (w : World) (verb : String)
    (pUrl : PelicanURL) (token : String) (cur : Cursor) :
    (requestsOf (queryDirector cfg lib w verb pUrl token cur).events).length
      ≤ (if verb = "DELETE" then 2 else 1) * (max 1 cfg.DirectorRetries).toNat := by
  by_cases hv : verb = "DELETE"
  · have hn := numRetries_toNat cfg
    have hput := fun c => queryDirector_requests_le_of_ne cfg lib w "PUT" pUrl token c (by decide)
    rw [queryDirector]
    simp only [hv, if_true]
    split
    · simp [requestsOf]
    · rename_i url _
      have hl := retryLoop_requests_le cfg lib w "DELETE" url token (numRetries cfg - 1).toNat 0 cur
      repeat' split
      all_goals first
        | omega
        | (simp only [requestsOf_append, List.length_append]
           have := hput (retryLoop cfg lib w "DELETE" url token (numRetries cfg - 1).toNat 0 cur).cursor
           omega)
  · simp only [hv, if_false, one_mul]
    exact queryDirector_requests_le_of_ne cfg lib w verb pUrl token cur hv

/-! ## C2: which responses are retried -/

/-- C2, as stated, fails: with `Client.DirectorRetries = 1`, a 429 from a
Pelican director is followed by the back-off and by no retry: the call sends
one request, sleeps three seconds and returns the 429 with its error. -/
theorem queryDirector_retry_counterexample :
    hasPrefix throttled.Server "pelican/" = true
      ∧ throttled.StatusCode = 429
      ∧ (queryDirector cfgOne libPlain busyDirector "GET" objUrl "" ⟨0, 0⟩).events
          = [.request (newRequest cfgOne "GET" objRequestUrl ""), .sleep (3 * Second)]
      ∧ (queryDirector cfgOne libPlain busyDirector "GET" objUrl "" ⟨0, 0⟩).value
          = ⟨some throttled, some (.message "429: Too Many Requests")⟩ := by
  refine ⟨by decide, rfl, ?_, ?_⟩
  · simp [queryDirector]
    decide
  · simp [queryDirector]
    decide

/-- C2, amended: with `Client.AssumeDirectorServerHeader` off, on a response
whose body can be read the retry loop backs off (the request is followed by a
sleep) if and only if the `Server` header does not begin with "pelican/" and
the status is 404, 500 or 502, or the header begins with "pelican/" and the
status is 429. After the back-off the loop retries when an attempt is left,
and after the last attempt it ends with this response, without another
request. In every other case the loop ends at once with this response, without
a sleep and without another request. -/
theorem retryLoop_retry_iff (cfg : Config) (lib : Lib) (w : World) (verb url token : String)
    (more idx : Nat) (cur : Cursor) (resp : Response) (body : String)
    (hcfg : cfg.AssumeDirectorServerHeader = false)
    (hreq : lib.newRequest verb url = .ok ())
    (hrep : w.director cur.sent = .response resp)
    (hbody : resp.Body = .ok body) :
    ((∃ d rest, (retryLoop cfg lib w verb url token more idx cur).events
          = .request (newRequest cfg verb url token) :: .sleep d :: rest)
      ↔ ((hasPrefix resp.Server "pelican/" = false
            ∧ (resp.StatusCode = 404 ∨ resp.StatusCode = 500 ∨ resp.StatusCode = 502))
          ∨ (hasPrefix resp.Server "pelican/" = true ∧ resp.StatusCode = 429)))
    ∧ (((hasPrefix resp.Server "pelican/" = false
            ∧ (resp.StatusCode = 404 ∨ resp.StatusCode = 500 ∨ resp.StatusCode = 502))
          ∨ (hasPrefix resp.Server "pelican/" = true ∧ resp.StatusCode = 429)) →
        retryLoop cfg lib w verb url token (more + 1) idx cur =
          ⟨.request (newRequest cfg verb url token) :: .sleep (backoff idx (w.float32 cur.drawn)) ::
              (retryLoop cfg lib w verb url token more (idx + 1) ⟨cur.sent + 1, cur.drawn + 1⟩).events,
            (retryLoop cfg lib w verb url token more (idx + 1) ⟨cur.sent + 1, cur.drawn + 1⟩).cursor,
            (retryLoop cfg lib w verb url token more (idx + 1) ⟨cur.sent + 1, cur.drawn + 1⟩).value⟩)
    ∧ (((hasPrefix resp.Server "pelican/" = false
            ∧ (resp.StatusCode = 404 ∨ resp.StatusCode = 500 ∨ resp.StatusCode = 502))
          ∨ (hasPrefix resp.Server "pelican/" = true ∧ resp.StatusCode = 429)) →
        retryLoop cfg lib w verb url token 0 idx cur =
          ⟨[.request (newRequest cfg verb url token), .sleep (backoff idx (w.float32 cur.drawn))],
            ⟨cur.sent + 1, cur.drawn + 1⟩,
            .finished resp body (hasPrefix resp.Server "pelican/")⟩)
    ∧ (¬ ((hasPrefix resp.Server "pelican/" = false
            ∧ (resp.StatusCode = 404 ∨ resp.StatusCode = 500 ∨ resp.StatusCode = 502))
          ∨ (hasPrefix resp.Server "pelican/" = true ∧ resp.StatusCode = 429)) →
        retryLoop cfg lib w verb url token more idx cur =
          ⟨[.request (newRequest cfg verb url token)], ⟨cur.sent + 1, cur.drawn⟩,
            .finished resp body (hasPrefix resp.Server "pelican/")⟩) := by
  have hat := attempt_response cfg lib w verb url token idx cur resp body hreq hrep hbody
  have hfp : fromPelican cfg resp = hasPrefix resp.Server "pelican/" := by
    simp [fromPelican, hcfg]
  rw [hfp] at hat
  refine ⟨?_, ?_, ?_, ?_⟩
  · by_cases hR : (hasPrefix resp.Server "pelican/" = false
            ∧ (resp.StatusCode = 404 ∨ resp.StatusCode = 500 ∨ resp.StatusCode = 502))
          ∨ (hasPrefix resp.Server "pelican/" = true ∧ resp.StatusCode = 429)
    · rw [if_pos hR] at hat
      simp only [hR, iff_true]
      cases more with
      | zero => exact ⟨_, [], by rw [retryLoop, hat]⟩
      | succ k => exact ⟨_, _, by rw [retryLoop, hat]; rfl⟩
    · rw [if_neg hR] at hat
      simp only [hR, iff_false]
      rintro ⟨d, rest, h⟩
      rw [retryLoop, hat] at h
      simp at h
  · intro hR
    rw [if_pos hR] at hat
    rw [retryLoop, hat]
    rfl
  · intro hR
    rw [if_pos hR] at hat
    rw [retryLoop, hat]
  · intro hR
    rw [if_neg hR] at hat
    rw [retryLoop, hat]

/-- C2 at a concrete input: with three attempts, a 502 from a proxy is followed
by the back-off of the first iteration and then by the second iteration. -/
theorem retryLoop_retry_iff_witness :
    retryLoop cfgThree libPlain proxyDown "GET" objRequestUrl "" (1 + 1) 0 ⟨0, 0⟩ =
      ⟨.request (newRequest cfgThree "GET" objRequestUrl "")
          :: .sleep (backoff 0 (proxyDown.float32 0))
          :: (retryLoop cfgThree libPlain proxyDown "GET" objRequestUrl "" 1 (0 + 1)
                ⟨0 + 1, 0 + 1⟩).events,
        (retryLoop cfgThree libPlain proxyDown "GET" objRequestUrl "" 1 (0 + 1)
            ⟨0 + 1, 0 + 1⟩).cursor,
        (retryLoop cfgThree libPlain proxyDown "GET" objRequestUrl "" 1 (0 + 1)
            ⟨0 + 1, 0 + 1⟩).value⟩ :=
  (retryLoop_retry_iff cfgThree libPlain proxyDown "GET" objRequestUrl "" 1 0 ⟨0, 0⟩ badGateway
    "Bad Gateway" rfl rfl rfl rfl).2.1 (Or.inl ⟨by decide, Or.inr (Or.inr rfl)⟩)

/-! ## C3: the back-off -/

/-- C3: on the iteration `idx` (counted from 0) of the retry loop, after a
readable response that is retried, either a 404, 500 or 502 not taken to come
from a Pelican process or a 429 taken to come from one, the loop sleeps for
`3·idx + 3` seconds plus a jitter that is at least 0 and less than one second
(the random draw being a `float32` in `[0, 1)`). -/
theorem retryLoop_backoff (cfg : Config) (lib : Lib) (w : World) (verb url token : String)
    (more idx : Nat) (cur : Cursor) (resp : Response) (body : String)
    (hreq : lib.newRequest verb url = .ok ())
    (hrep : w.director cur.sent = .response resp)
    (hbody : resp.Body = .ok body)
    (hfloat : isFloat32 (w.float32 cur.drawn) = true)
    (hlt : w.float32 cur.drawn < 2 ^ 149)
    (hretry : (fromPelican cfg resp = false
            ∧ (resp.StatusCode = 404 ∨ resp.StatusCode = 500 ∨ resp.StatusCode = 502))
          ∨ (fromPelican cfg resp = true ∧ resp.StatusCode = 429)) :
    ∃ jitter : Int, 0 ≤ jitter ∧ jitter < Second ∧
      ∃ rest, (retryLoop cfg lib w verb url token more idx cur).events
        = .request (newRequest cfg verb url token)
            :: .sleep ((3 * (idx : Int) + 3) * Second + jitter) :: rest := by
  have hat := attempt_response cfg lib w verb url token idx cur resp body hreq hrep hbody
  rw [if_pos hretry] at hat
  obtain ⟨jitter, h0, h1, hb⟩ := backoff_bounds idx (w.float32 cur.drawn) hfloat hlt
  refine ⟨jitter, h0, h1, ?_⟩
  rw [← hb]
  cases more with
  | zero => exact ⟨[], by rw [retryLoop, hat]⟩
  | succ k => exact ⟨_, by rw [retryLoop, hat]; rfl⟩

set_option maxRecDepth 8000 in
/-- C3 at a concrete input: the first iteration, answered by a 502 of a proxy,
sleeps between 3 and 4 seconds. -/
theorem retryLoop_backoff_witness :
    ∃ jitter : Int, 0 ≤ jitter ∧ jitter < Second ∧
      ∃ rest, (retryLoop cfgOne libPlain proxyDown "GET" objRequestUrl "" 0 0 ⟨0, 0⟩).events
        = .request (newRequest cfgOne "GET" objRequestUrl "")
            :: .sleep ((3 * ((0 : Nat) : Int) + 3) * Second + jitter) :: rest :=
  retryLoop_backoff cfgOne libPlain proxyDown "GET" objRequestUrl "" 0 0 ⟨0, 0⟩ badGateway
    "Bad Gateway" rfl rfl rfl (by decide) (by decide) (Or.inl ⟨by decide, Or.inr (Or.inr rfl)⟩)

/-! ## C4: the sleeps of one run of the loop -/

set_option maxRecDepth 8000 in
/-- C4, as stated, fails: with `Client.DirectorRetries = 1` the bound
`3·(n-1)+3` is 3 seconds, and a run answered by a proxy's 502 with a random
draw of one half sleeps 3.5 seconds. -/
theorem retryLoop_sleeps_counterexample :
    sleepsOf (retryLoop cfgOne libPlain proxyDown "GET" objRequestUrl ""
        (numRetries cfgOne - 1).toNat 0 ⟨0, 0⟩).events = [3500000000]
      ∧ ¬ ((3500000000 : Int) ≤ (3 * (cfgOne.DirectorRetries - 1) + 3) * Second) := by
  decide

/-- C4, amended: within one run of the retry loop, with `n` the value of
`Client.DirectorRetries` or 1 when that is below 1, the successive sleeps are
non-decreasing and every sleep is less than `3·(n-1)+3` seconds plus one
second of jitter (the random draws being `float32` values in `[0, 1)`). -/
theorem retryLoop_sleeps_sorted (cfg : Config) (lib : Lib) (w : World) (verb url token : String)
    (cur : Cursor)
    (hdraws : ∀ k, isFloat32 (w.float32 k) = true ∧ w.float32 k < 2 ^ 149) :
    List.Sorted (· ≤ ·) (sleepsOf (retryLoop cfg lib w verb url token
        (numRetries cfg - 1).toNat 0 cur).events)
      ∧ ∀ d ∈ sleepsOf (retryLoop cfg lib w verb url token
          (numRetries cfg - 1).toNat 0 cur).events,
          d < (3 * (max 1 cfg.DirectorRetries - 1) + 3) * Second + Second := by
  obtain ⟨n, hn, hs⟩ := retryLoop_sleeps cfg lib w verb url token (numRetries cfg - 1).toNat 0 cur
  have hnum := numRetries_toNat cfg
  rw [hs]
  constructor
  · rw [List.Sorted, List.pairwise_map]
    refine List.Pairwise.imp ?_ (List.pairwise_lt_range n)
    intro a b hab
    obtain ⟨ja, ha0, ha1, hae⟩ := backoff_bounds (0 + a) _ (hdraws (cur.drawn + a)).1
      (hdraws (cur.drawn + a)).2
    obtain ⟨jb, hb0, hb1, hbe⟩ := backoff_bounds (0 + b) _ (hdraws (cur.drawn + b)).1
      (hdraws (cur.drawn + b)).2
    rw [hae, hbe]
    simp only [Second] at *
    push_cast
    omega
  · intro d hd
    simp only [List.mem_map, List.mem_range] at hd
    obtain ⟨a, han, rfl⟩ := hd
    obtain ⟨ja, ha0, ha1, hae⟩ := backoff_bounds (0 + a) _ (hdraws (cur.drawn + a)).1
      (hdraws (cur.drawn + a)).2
    rw [hae]
    simp only [Second] at *
    push_cast
    omega

set_option maxRecDepth 8000 in
/-- C4 at a concrete input: three attempts against a proxy that keeps
answering 502, with every random draw one half. -/
theorem retryLoop_sleeps_sorted_witness :
    List.Sorted (· ≤ ·) (sleepsOf (retryLoop cfgThree libPlain proxyDown "GET" objRequestUrl ""
        (numRetries cfgThree - 1).toNat 0 ⟨0, 0⟩).events)
      ∧ ∀ d ∈ sleepsOf (retryLoop cfgThree libPlain proxyDown "GET" objRequestUrl ""
          (numRetries cfgThree - 1).toNat 0 ⟨0, 0⟩).events,
          d < (3 * (max 1 cfgThree.DirectorRetries - 1) + 3) * Second + Second :=
  retryLoop_sleeps_sorted cfgThree libPlain proxyDown "GET" objRequestUrl "" ⟨0, 0⟩
    (fun _ => ⟨(by decide : isFloat32 (2 ^ 148) = true), (by decide : 2 ^ 148 < 2 ^ 149)⟩)

/-! ## C5: the PUT fallback of DELETE -/

/-- C5, as stated, fails: a DELETE that ends with a 404 whose body contains
"page not found", sent as `application/json` but not JSON, returns the
unmarshal error with the 404; no PUT is sent. -/
theorem queryDirector_fallback_counterexample :
    jsonNotFound.StatusCode = 404
      ∧ strContains (strToLower "404 page not found") "page not found" = true
      ∧ (requestsOf (queryDirector cfgOne libPlain brokenJson "DELETE" objUrl "" ⟨0, 0⟩).events).map
          (fun r => r.Method) = ["DELETE"]
      ∧ (queryDirector cfgOne libPlain brokenJson "DELETE" objUrl "" ⟨0, 0⟩).value
          = ⟨some jsonNotFound, some (.unmarshal "invalid character")⟩ := by
  refine ⟨rfl, by decide, ?_, ?_⟩
  · simp [queryDirector]
    decide
  · simp [queryDirector]
    decide

/-- C5, amended: whenever the retry loop of a DELETE query ends with a 404
response whose body contains "page not found" (in any letter case) and, when
the response has content type `application/json`, unmarshals as JSON, then
`queryDirector` queries again with PUT, the same Pelican URL and the same
token, and returns what that query returns; the PUT query sends only PUT
requests to the same request URL with the same token, and runs the retry loop
once. -/
theorem queryDirector_delete_fallback (cfg : Config) (lib : Lib) (w : World)
    (pUrl : PelicanURL) (token : String) (cur : Cursor) (url : String) (resp : Response)
    (body : String) (fd : Bool)
    (hurl : lib.resourceUrl pUrl = .ok url)
    (hloop : (retryLoop cfg lib w "DELETE" url token (numRetries cfg - 1).toNat 0 cur).value
      = .finished resp body fd)
    (hstatus : resp.StatusCode = 404)
    (hbody : strContains (strToLower body) "page not found" = true)
    (hjson : lib.hasContentType resp "application/json" = true →
      ∃ msg, lib.unmarshalMsg body = .ok msg) :
    queryDirector cfg lib w "DELETE" pUrl token cur
        = ⟨(retryLoop cfg lib w "DELETE" url token (numRetries cfg - 1).toNat 0 cur).events
            ++ (queryDirector cfg lib w "PUT" pUrl token
                (retryLoop cfg lib w "DELETE" url token (numRetries cfg - 1).toNat 0 cur).cursor).events,
          (queryDirector cfg lib w "PUT" pUrl token
                (retryLoop cfg lib w "DELETE" url token (numRetries cfg - 1).toNat 0 cur).cursor).cursor,
          (queryDirector cfg lib w "PUT" pUrl token
                (retryLoop cfg lib w "DELETE" url token (numRetries cfg - 1).toNat 0 cur).cursor).value⟩
      ∧ (∀ req ∈ requestsOf (queryDirector cfg lib w "PUT" pUrl token
                (retryLoop cfg lib w "DELETE" url token (numRetries cfg - 1).toNat 0 cur).cursor).events,
          req = newRequest cfg "PUT" url token)
      ∧ (requestsOf (queryDirector cfg lib w "PUT" pUrl token
                (retryLoop cfg lib w "DELETE" url token (numRetries cfg - 1).toNat 0 cur).cursor).events).length
          ≤ (max 1 cfg.DirectorRetries).toNat := by
  refine ⟨?_, queryDirector_requests_eq_of_ne cfg lib w "PUT" pUrl token _ url hurl (by decide),
    queryDirector_requests_le_of_ne cfg lib w "PUT" pUrl token _ (by decide)⟩
  rw [queryDirector, hurl]
  simp only [hloop, hstatus]
  by_cases hj : lib.hasContentType resp "application/json" = true
  · obtain ⟨msg, hmsg⟩ := hjson hj
    simp [hj, hmsg, hbody]
  · simp [hj, hbody]

/-- C5 at a concrete input: a DELETE answered by the 404 "404 page not found"
of an old director returns what the PUT query returns. -/
theorem queryDirector_delete_fallback_witness :
    (queryDirector cfgOne libPlain oldDirector "DELETE" objUrl "" ⟨0, 0⟩).value
      = (queryDirector cfgOne libPlain oldDirector "PUT" objUrl ""
          (retryLoop cfgOne libPlain oldDirector "DELETE" objRequestUrl ""
            (numRetries cfgOne - 1).toNat 0 ⟨0, 0⟩).cursor).value :=
  by rw [(queryDirector_delete_fallback cfgOne libPlain oldDirector objUrl "" ⟨0, 0⟩ objRequestUrl
      pageNotFound "404 page not found" true (by decide) (by decide) rfl (by decide)
      (fun h => absurd h (by decide))).1]

/-! ## C6: a response without an error -/

/-- A query with a verb other than DELETE returns no error only with a 307, or
with a 207 when the verb is PROPFIND. -/
theorem queryDirector_nil_error_of_ne (cfg : Config) (lib : Lib) (w : World) (verb : String)
    (pUrl : PelicanURL) (token : String) (cur : Cursor) (hne : verb ≠ "DELETE")
    (herr : (queryDirector cfg lib w verb pUrl token cur).value.err = none) :
    ∃ resp, (queryDirector cfg lib w verb pUrl token cur).value.resp = some resp
      ∧ (resp.StatusCode = 307 ∨ (resp.StatusCode = 207 ∧ verb = "PROPFIND")) := by
  generalize hq : queryDirector cfg lib w verb pUrl token cur = out at herr ⊢
  rw [queryDirector] at hq
  simp only at hq
  split at hq
  · subst hq; simp at herr
  · split at hq
    · subst hq; simp at herr
    · split at hq
      · subst hq; simp at herr
      · rename_i resp body fd hloop _ msg hmsg
        split_ifs at hq
        all_goals subst hq
        all_goals simp_all

/-- C6, as stated, fails: a PROPFIND answered with 207 returns the response
and no error. -/
theorem queryDirector_nil_error_counterexample :
    (queryDirector cfgOne libPlain proxyingDirector "PROPFIND" objUrl "" ⟨0, 0⟩).value
        = ⟨some multiStatus, none⟩
      ∧ multiStatus.StatusCode ≠ 307 := by
  refine ⟨?_, by decide⟩
  simp [queryDirector]
  decide

/-- C6, amended: `queryDirector` returns no error only together with a final
response whose status is 307, or 207 when the verb is PROPFIND; for every other
final response the call returns a non-nil error. -/
theorem queryDirector_nil_error (cfg : Config) (lib : Lib) (w : World) (verb : String)
    (pUrl : PelicanURL) (token : String) (cur : Cursor)
    (herr : (queryDirector cfg lib w verb pUrl token cur).value.err = none) :
    ∃ resp, (queryDirector cfg lib w verb pUrl token cur).value.resp = some resp
      ∧ (resp.StatusCode = 307 ∨ (resp.StatusCode = 207 ∧ verb = "PROPFIND")) := by
  by_cases hv : verb = "DELETE"
  · subst hv
    have hput := fun c => queryDirector_nil_error_of_ne cfg lib w "PUT" pUrl token c (by decide)
    generalize hq : queryDirector cfg lib w "DELETE" pUrl token cur = out at herr ⊢
    rw [queryDirector] at hq
    simp only at hq
    split at hq
    · subst hq; simp at herr
    · split at hq
      · subst hq; simp at herr
      · split at hq
        · subst hq; simp at herr
        · rename_i resp body fd hloop _ msg hmsg
          split_ifs at hq with h207 h307 hdel
          · simp at h207
          · subst hq
            obtain ⟨r, hr, hs⟩ := hput _ herr
            refine ⟨r, hr, ?_⟩
            rcases hs with hs | ⟨_, hs⟩
            · exact Or.inl hs
            · exact absurd hs (by decide)
          all_goals subst hq
          all_goals simp_all
  · exact queryDirector_nil_error_of_ne cfg lib w verb pUrl token cur hv herr

/-- C6 at a concrete input: a GET answered with a 307 returns no error. -/
theorem queryDirector_nil_error_witness :
    ∃ resp, (queryDirector cfgOne libPlain redirecting "GET" objUrl "" ⟨0, 0⟩).value.resp = some resp
      ∧ (resp.StatusCode = 307 ∨ (resp.StatusCode = 207 ∧ "GET" = "PROPFIND")) :=
  queryDirector_nil_error cfgOne libPlain redirecting "GET" objUrl "" ⟨0, 0⟩
    (by simp [queryDirector]; decide)

/-! ## Lemmas on splitting and joining -/

/-- Splitting reads a piece without separator up to the separator that
follows it. -/
theorem splitAux_append_sep (sep : Char) :
    ∀ (s acc rest : List Char), sep ∉ s →
      splitAux sep (s ++ sep :: rest) acc = (acc.reverse ++ s) :: splitAux sep rest [] := by
  intro s
  induction s with
  | nil => intro acc rest _; simp [splitAux]
  | cons c s ih =>
    intro acc rest h
    have hc : c ≠ sep := fun e => h (by simp [e])
    have hs : sep ∉ s := fun e => h (by simp [e])
    simp [splitAux, hc, ih _ _ hs]

/-- Splitting a text without separator gives the text. -/
theorem splitAux_no_sep (sep : Char) :
    ∀ (s acc : List Char), sep ∉ s → splitAux sep s acc = [acc.reverse ++ s] := by
  intro s
  induction s with
  | nil => intro acc _; simp [splitAux]
  | cons c s ih =>
    intro acc h
    have hc : c ≠ sep := fun e => h (by simp [e])
    have hs : sep ∉ s := fun e => h (by simp [e])
    simp [splitAux, hc, ih _ hs]

/-- Splitting a joined text at the first character of the separator gives the
pieces back, each but the first with the rest of the separator in front. -/
theorem splitAux_specJoin (c : Char) (pad : List Char) (hpad : c ∉ pad) :
    ∀ (xs : List (List Char)) (x pre : List Char), c ∉ pre → (∀ s ∈ x :: xs, c ∉ s) →
      splitAux c (pre ++ specJoin (c :: pad) (x :: xs)) []
        = (pre ++ x) :: xs.map (fun s => pad ++ s) := by
  intro xs
  induction xs with
  | nil =>
    intro x pre hpre h
    have hx : c ∉ x := h x (by simp)
    simp only [specJoin, List.map_nil]
    rw [splitAux_no_sep c (pre ++ x) [] (by simp [hpre, hx])]
    simp
  | cons y l ih =>
    intro x pre hpre h
    have hx : c ∉ x := h x (by simp)
    have hrest : ∀ s ∈ y :: l, c ∉ s := fun s hs => h s (by simp [List.mem_cons] at hs ⊢; tauto)
    have e : pre ++ specJoin (c :: pad) (x :: y :: l)
        = (pre ++ x) ++ c :: (pad ++ specJoin (c :: pad) (y :: l)) := by
      simp [specJoin]
    rw [e, splitAux_append_sep c (pre ++ x) [] _ (by simp [hpre, hx]), ih y pad hpad hrest]
    simp

/-- A character that is in no piece and not in the separator is not in the
joined text. -/
theorem not_mem_specJoin (d : Char) (sep : List Char) (hsep : d ∉ sep) :
    ∀ (xs : List (List Char)), (∀ s ∈ xs, d ∉ s) → d ∉ specJoin sep xs := by
  intro xs
  induction xs with
  | nil => intro _; simp [specJoin]
  | cons x l ih =>
    intro h
    cases l with
    | nil => simpa [specJoin] using h x (by simp)
    | cons y l =>
      have hx : d ∉ x := h x (by simp)
      have hrest := ih (fun s hs => h s (by simp [List.mem_cons] at hs ⊢; tauto))
      simp [specJoin, hx, hsep, hrest]

/-- Removing the spaces of a text joined with "; " from pieces without space
joins the pieces with ";". -/
theorem filter_specJoin (pad : List Char) (hpad : ∀ c ∈ pad, c = ' ') :
    ∀ (xs : List (List Char)), (∀ s ∈ xs, ' ' ∉ s) →
      (pad ++ specJoin [';', ' '] xs).filter (fun c => c ≠ ' ') = specJoin [';'] xs := by
  have hp : pad.filter (fun c => decide (c ≠ ' ')) = [] := by
    rw [List.filter_eq_nil_iff]
    intro c hc
    simp [hpad c hc]
  have hkeep : ∀ s : List Char, ' ' ∉ s → s.filter (fun c => decide (c ≠ ' ')) = s := by
    intro s hs
    rw [List.filter_eq_self]
    intro c hc
    have : c ≠ ' ' := fun e => hs (e ▸ hc)
    simp [this]
  have hsep : [';', ' '].filter (fun c => decide (c ≠ ' ')) = [';'] := by decide
  intro xs
  induction xs with
  | nil =>
    intro _
    simp only [specJoin, List.append_nil]
    exact hp
  | cons x l ih =>
    intro h
    have hx := hkeep x (h x (by simp))
    cases l with
    | nil => simp only [specJoin, List.filter_append, hp, hx, List.nil_append]
    | cons y l =>
      have hrest := ih (fun s hs => h s (by simp [List.mem_cons] at hs ⊢; tauto))
      simp only [List.filter_append, hp, List.nil_append] at hrest
      simp only [specJoin, List.filter_append, hp, hx, hsep, hrest, List.nil_append]

/-! ## Lemmas on decimal numerals -/

/-- The character written for a digit is a digit of that value. -/
theorem digit_char : ∀ d < 10,
    (Char.ofNat (48 + d)).isDigit = true ∧ (Char.ofNat (48 + d)).toNat - 48 = d := by
  decide

/-- A numeral holds only digits. -/
theorem specDecimalAux_digits :
    ∀ (fuel n : Nat) (acc : List Char), (∀ c ∈ acc, c.isDigit = true) →
      ∀ c ∈ specDecimalAux fuel n acc, c.isDigit = true := by
  intro fuel
  induction fuel with
  | zero => intro n acc h; simpa [specDecimalAux] using h
  | succ k ih =>
    intro n acc h
    simp only [specDecimalAux]
    split
    · rename_i hn
      intro c hc
      rcases List.mem_cons.mp hc with rfl | hc
      · exact (digit_char n hn).1
      · exact h c hc
    · apply ih
      intro c hc
      rcases List.mem_cons.mp hc with rfl | hc
      · exact (digit_char (n % 10) (Nat.mod_lt _ (by decide))).1
      · exact h c hc

/-- A numeral is not empty. -/
theorem specDecimalAux_ne_nil :
    ∀ (fuel n : Nat) (acc : List Char), n < fuel → specDecimalAux fuel n acc ≠ [] := by
  intro fuel
  induction fuel with
  | zero => intro n acc h; omega
  | succ k ih =>
    intro n acc h
    simp only [specDecimalAux]
    split
    · simp
    · rename_i hn
      exact ih _ _ (by omega)

/-- Reading a numeral gives its number. -/
theorem parseDigits_specDecimalAux :
    ∀ (fuel n : Nat) (acc : List Char), n < fuel → n ≤ 2 ^ 64 - 1 →
      parseDigits (specDecimalAux fuel n acc) 0 = parseDigits acc n := by
  intro fuel
  induction fuel with
  | zero => intro n acc h; omega
  | succ k ih =>
    intro n acc h hn
    simp only [specDecimalAux]
    split
    · rename_i h10
      obtain ⟨hd, hv⟩ := digit_char n h10
      simp only [parseDigits, hd, if_true, hv, Nat.zero_mul, Nat.zero_add]
      rw [if_neg (by omega)]
    · rename_i h10
      rw [ih (n / 10) _ (by omega) (by omega)]
      obtain ⟨hd, hv⟩ := digit_char (n % 10) (Nat.mod_lt _ (by decide))
      simp only [parseDigits, hd, if_true, hv]
      have e : n / 10 * 10 + n % 10 = n := by omega
      rw [e, if_neg (by omega)]

/-- The function `atoi` reads a text of digits whose number is below `2^63` as
that number. -/
theorem atoi_digits (l : List Char) (n : Nat) (hne : l ≠ [])
    (hdig : ∀ c ∈ l, c.isDigit = true) (hparse : parseDigits l 0 = some n) (hn : n < 2 ^ 63) :
    atoi (String.mk l) = (n : Int) := by
  cases l with
  | nil => exact absurd rfl hne
  | cons d tl =>
    have hd := hdig d (by simp)
    have h1 : d ≠ '+' := fun e => absurd (e ▸ hd) (by decide)
    have h2 : d ≠ '-' := fun e => absurd (e ▸ hd) (by decide)
    have h63 : ¬ n ≥ 2 ^ 63 := by omega
    have hm : (match d :: tl with
        | '+' :: r => (false, r)
        | '-' :: r => (true, r)
        | r => (false, r)) = ((false, d :: tl) : Bool × List Char) := by
      split
      · rename_i r hr
        simp only [List.cons.injEq] at hr
        exact absurd hr.1 h1
      · rename_i r hr
        simp only [List.cons.injEq] at hr
        exact absurd hr.1 h2
      · rfl
    unfold atoi
    simp only [hm, hparse]
    simp
    intro h
    omega

/-- The function `atoi` reads the numeral of a number below `2^63` as that
number. -/
theorem atoi_specDecimal (n : Nat) (hn : n < 2 ^ 63) :
    atoi (String.mk (specDecimal n)) = (n : Int) := by
  have hparse := parseDigits_specDecimalAux (n + 1) n [] (by omega) (by omega)
  simp only [parseDigits] at hparse
  exact atoi_digits _ n (specDecimalAux_ne_nil (n + 1) n [] (by omega))
    (specDecimalAux_digits (n + 1) n [] (by simp)) hparse hn

/-! ## Lemmas on the scan of an entry as the director writes it -/

/-- The loop over the segments passes over segments that start neither with
"<" nor with "pri". -/
theorem scanLinks_skip :
    ∀ (segs : List String), (∀ v ∈ segs, hasPrefix v "<" = false ∧ hasPrefix v "pri" = false) →
      ∀ (rest : List String) (st : GoString × Int),
        scanLinks (segs ++ rest) st = scanLinks rest st := by
  intro segs
  induction segs with
  | nil => intro _ rest st; rfl
  | cons v l ih =>
    intro h rest st
    obtain ⟨endpoint, pri⟩ := st
    obtain ⟨h1, h2⟩ := h v (by simp)
    have hl := ih (fun u hu => h u (by simp [hu]))
    simp only [List.cons_append, scanLinks, h1, h2, Bool.false_eq_true, if_false]
    exact hl rest (endpoint, pri)

/-- The segments of an entry are free of the given character when the URL and
the parameters are. -/
theorem entry_segments_free (e : SpecLinkEntry) (d : Char) (hd : d.isDigit = false)
    (hp : d ≠ 'p' ∧ d ≠ 'r' ∧ d ≠ 'i' ∧ d ≠ '=' ∧ d ≠ '<' ∧ d ≠ '>')
    (hurl : d ∉ e.URL.data) (hpar : ∀ p ∈ e.before ++ e.after, d ∉ p.data) :
    ∀ s ∈ (['<'] ++ e.URL.data ++ ['>']) ::
        (e.before.map (fun p => p.data) ++ [['p', 'r', 'i', '='] ++ specDecimal e.pri]
          ++ e.after.map (fun p => p.data)), d ∉ s := by
  obtain ⟨h1, h2, h3, h4, h5, h6⟩ := hp
  have hdec : d ∉ specDecimal e.pri := by
    intro hmem
    have := specDecimalAux_digits (e.pri + 1) e.pri [] (by simp) d hmem
    rw [hd] at this
    exact absurd this (by decide)
  intro s hs
  simp only [List.mem_cons, List.mem_append, List.mem_map, List.mem_singleton,
    List.not_mem_nil, or_false] at hs
  rcases hs with rfl | (⟨p, hp, rfl⟩ | rfl) | ⟨p, hp, rfl⟩
  · simp [hurl, h5, h6]
  · exact hpar p (by simp [hp])
  · simp [hdec, h1, h2, h3, h4]
  · exact hpar p (by simp [hp])

/-- The scan of one entry as the director writes it, with spaces in front:
the endpoint is the URL of the entry and the priority is its rank. -/
theorem scanLinks_specEntryText (e : SpecLinkEntry) (he : e.plain) (pad : List Char)
    (hpad : ∀ c ∈ pad, c = ' ') :
    scanLinks (strSplit (removeSpaces (String.mk (pad ++ specEntryText e))) ';') (⟨"", []⟩, 0)
      = .ok (⟨e.URL, []⟩, (e.pri : Int)) := by
  obtain ⟨hurl, hpri, hpar⟩ := he
  have hspace := entry_segments_free e ' ' (by decide) (by decide)
    (fun h => (hurl _ h).2.2 rfl) (fun p hp h => ((hpar p hp).1 _ h).2.2 rfl)
  have hsemi := entry_segments_free e ';' (by decide) (by decide)
    (fun h => (hurl _ h).2.1 rfl) (fun p hp h => ((hpar p hp).1 _ h).2.1 rfl)
  have hfilter := filter_specJoin pad hpad _ hspace
  have hsplit := splitAux_specJoin ';' [] (by simp) _ _ [] (by simp) hsemi
  simp only [List.nil_append, List.map_id'] at hsplit
  simp only [removeSpaces, strSplit, specEntryText, hfilter, hsplit]
  have hbefore : ∀ v ∈ e.before, hasPrefix v "<" = false ∧ hasPrefix v "pri" = false :=
    fun v hv => (hpar v (by simp [hv])).2
  have hafter : ∀ v ∈ e.after, hasPrefix v "<" = false ∧ hasPrefix v "pri" = false :=
    fun v hv => (hpar v (by simp [hv])).2
  have hmap : ∀ l : List String, (l.map (fun p => p.data)).map String.mk = l := by
    intro l
    simp [List.map_map, Function.comp_def]
  simp only [List.map_cons, List.map_append, hmap, List.map_nil]
  have hfirst : ∀ rest st, scanLinks (String.mk (['<'] ++ e.URL.data ++ ['>']) :: rest) (st, 0)
      = scanLinks rest (⟨e.URL, []⟩, 0) := by
    intro rest st
    have h1 : hasPrefix (String.mk (['<'] ++ e.URL.data ++ ['>'])) "<" = true := by
      simp [hasPrefix, List.isPrefixOf]
    have h2 : sliceInner (String.mk (['<'] ++ e.URL.data ++ ['>'])) = some ⟨e.URL, []⟩ := by
      simp [sliceInner, utf8Char]
    simp only [scanLinks, h1, if_true, h2]
  have hprifix : ∀ rest st, scanLinks
      (String.mk (['p', 'r', 'i', '='] ++ specDecimal e.pri) :: rest) st
      = scanLinks rest (st.1, (e.pri : Int)) := by
    intro rest st
    obtain ⟨endpoint, pri⟩ := st
    have h1 : hasPrefix (String.mk (['p', 'r', 'i', '='] ++ specDecimal e.pri)) "<" = false := by
      simp [hasPrefix, List.isPrefixOf]
    have h2 : hasPrefix (String.mk (['p', 'r', 'i', '='] ++ specDecimal e.pri)) "pri" = true := by
      simp [hasPrefix, List.isPrefixOf]
    have h3 : priValue (String.mk (['p', 'r', 'i', '='] ++ specDecimal e.pri))
        = some (e.pri : Int) := by
      simp [priValue, atoi_specDecimal e.pri hpri]
    simp only [scanLinks, h1, h2, h3, Bool.false_eq_true, if_false, if_true]
  rw [hfirst, List.append_assoc, scanLinks_skip _ hbefore, List.singleton_append, hprifix,
    ← List.append_nil e.after, scanLinks_skip _ hafter]
  rfl

/-- The loop over the parts of the header, on parts that are entries as the
director writes them, with spaces in front: it appends, to the servers
collected so far, the entries whose URL parses, in the order of the header, and
goes on with the parts that follow. -/
theorem collectServers_spec {U : Type} (parse : GoString → Option U) (pad : List Char)
    (hpad : ∀ c ∈ pad, c = ' ') :
    ∀ (es : List SpecLinkEntry), (∀ e ∈ es, e.plain) →
      ∀ (tail : List String) (acc : List (ServerPriority U)),
        collectServers parse (es.map (fun e => String.mk (pad ++ specEntryText e)) ++ tail) acc
          = collectServers parse tail
              (acc ++ es.filterMap (fun e =>
                (parse ⟨e.URL, []⟩).map (fun u => (⟨u, (e.pri : Int)⟩ : ServerPriority U)))) := by
  intro es
  induction es with
  | nil => intro _ tail acc; simp
  | cons e l ih =>
    intro h tail acc
    have hscan := scanLinks_specEntryText e (h e (by simp)) pad hpad
    have hl := ih (fun x hx => h x (by simp [hx])) tail
    simp only [List.map_cons, List.cons_append, collectServers, hscan]
    cases hp : parse ⟨e.URL, []⟩ with
    | none => simp [hl, hp]
    | some u => simp [hl, hp]

/-- The text of an entry as the director writes it has no comma when its URL
and its parameters have none. -/
theorem specEntryText_no_comma (e : SpecLinkEntry) (he : e.plain) : ',' ∉ specEntryText e := by
  obtain ⟨hurl, _, hpar⟩ := he
  exact not_mem_specJoin ',' [';', ' '] (by decide) _
    (entry_segments_free e ',' (by decide) (by decide)
      (fun h => (hurl _ h).1 rfl) (fun p hp h => ((hpar p hp).1 _ h).1 rfl))

/-- The servers collected from a header as the director writes it: the entries
whose URL parses, in the order of the header, each with its rank. -/
theorem collectServers_specLinkText {U : Type} (parse : GoString → Option U)
    (entries : List SpecLinkEntry) (hne : entries ≠ []) (hplain : ∀ e ∈ entries, e.plain) :
    collectServers parse (strSplit (specLinkText entries) ',') []
      = .ok (entries.filterMap (fun e =>
          (parse ⟨e.URL, []⟩).map (fun u => (⟨u, (e.pri : Int)⟩ : ServerPriority U)))) := by
  cases entries with
  | nil => exact absurd rfl hne
  | cons e0 rest =>
    have hcomma : ∀ s ∈ specEntryText e0 :: rest.map specEntryText, ',' ∉ s := by
      intro s hs
      simp only [List.mem_cons, List.mem_map] at hs
      rcases hs with rfl | ⟨e, he, rfl⟩
      · exact specEntryText_no_comma e0 (hplain e0 (by simp))
      · exact specEntryText_no_comma e (hplain e (by simp [he]))
    have hsplit := splitAux_specJoin ',' [' '] (by decide) _ _ [] (by simp) hcomma
    simp only [List.nil_append] at hsplit
    have h0 := collectServers_spec parse [] (by simp) [e0] (fun e he => hplain e (by
      simp only [List.mem_singleton] at he; simp [he]))
    have h1 := collectServers_spec parse [' '] (by simp) rest
      (fun e he => hplain e (by simp [he])) []
    simp only [List.map_cons, List.map_nil, List.nil_append, List.singleton_append,
      List.append_nil] at h0 h1
    simp only [strSplit, specLinkText, List.map_cons, hsplit, List.map_map, Function.comp_def,
      List.singleton_append]
    rw [h0, h1]
    simp [collectServers, List.filterMap_cons]
    cases parse ⟨e0.URL, []⟩ <;> simp

/-- The two slices are taken by bytes: of "<é" the slice `val[1:len(val)-1]`
is the first byte of "é" alone, and of "prié5" the slice `val[4:]` starts with
the second byte of "é", which `Atoi` does not read. -/
theorem slices_cut_characters :
    sliceInner "<é" = some ⟨"", [195]⟩
      ∧ priValue "prié5" = some 0
      ∧ sliceInner "<é>" = some ⟨"é", []⟩
      ∧ priValue "pri=5" = some 5 := by
  decide

/-! ## C7: the servers of the `Link` header -/

/-- C7, as stated, fails. Of the two entries of the first header the second,
whose URL `url.Parse` rejects, is not among the servers returned. The one entry
of the second header, whose URL has a comma, is cut at the comma: its URL is
not returned, and two other URLs are. And of two `Link` header lines only the
first is read. -/
theorem parseServers_counterexample :
    (redirectBadEntry.Link = [specLinkText badEntries]
        ∧ parseServersFromDirectorResponse sortSlice parseText redirectBadEntry
          = .ok [⟨"https://cache-a.example:8443/ns/obj", []⟩])
      ∧ (redirectComma.Link = [specLinkText commaEntries]
        ∧ parseServersFromDirectorResponse sortSlice parseText redirectComma
          = .ok [⟨"https://a.example/x?y=", []⟩, ⟨"", []⟩])
      ∧ parseServersFromDirectorResponse sortSlice parseText redirectTwoLines
          = .ok [⟨"https://cache-a.example:8443/ns/obj", []⟩] := by
  decide

/-- C7, amended: let the first `Link` header value of a director response list
one or more entries as the director writes them, `<URL>` followed by
parameters, `pri=<rank>` among them, where neither a URL nor a parameter
contains a comma, a semicolon or a space, no parameter but `pri` starts with
"<" or "pri", and every rank is below `2^63`. Then
`parseServersFromDirectorResponse` returns the URLs of the entries whose URL
`url.Parse` accepts, ordered by non-decreasing `pri` value, and the returned
list is a rearrangement of the URLs of exactly those entries. Of `sort.Slice`
only this is used: it returns a rearrangement of the slice in which no element
has a smaller priority than an element before it. -/
theorem parseServers_sorted_perm {U : Type}
    (sort : List (ServerPriority U) → List (ServerPriority U))
    (parse : GoString → Option U) (resp : Response)
    (others : List String) (entries : List SpecLinkEntry)
    (hsort : ∀ l, List.Sorted (fun a b => a.Priority ≤ b.Priority) (sort l) ∧ (sort l).Perm l)
    (hlink : resp.Link = specLinkText entries :: others)
    (hne : entries ≠ [])
    (hplain : ∀ e ∈ entries, e.plain) :
    ∃ sp : List (ServerPriority U),
      parseServersFromDirectorResponse sort parse resp = .ok (sp.map (fun s => s.URL))
      ∧ List.Sorted (fun a b => a.Priority ≤ b.Priority) sp
      ∧ sp.Perm (entries.filterMap
          (fun e => (parse ⟨e.URL, []⟩).map (fun u => (⟨u, (e.pri : Int)⟩ : ServerPriority U))))
      ∧ (sp.map (fun s => s.URL)).Perm (entries.filterMap (fun e => parse ⟨e.URL, []⟩)) := by
  have hc := collectServers_specLinkText parse entries hne hplain
  have hmap : (entries.filterMap
        (fun e => (parse ⟨e.URL, []⟩).map
          (fun u => (⟨u, (e.pri : Int)⟩ : ServerPriority U)))).map (fun s => s.URL)
      = entries.filterMap (fun e => parse ⟨e.URL, []⟩) := by
    rw [List.map_filterMap]
    apply List.filterMap_congr
    intro e _
    cases parse ⟨e.URL, []⟩ <;> rfl
  rw [← hmap]
  generalize entries.filterMap
    (fun e => (parse ⟨e.URL, []⟩).map
      (fun u => (⟨u, (e.pri : Int)⟩ : ServerPriority U))) = kept at hc ⊢
  obtain ⟨hsorted, hperm⟩ := hsort kept
  refine ⟨sort kept, ?_, hsorted, hperm, hperm.map _⟩
  simp only [parseServersFromDirectorResponse, hlink, hc]

/-- C7 at a concrete input: the two caches of `redirect` come out by
priority. -/
theorem parseServers_sorted_perm_witness :
    ∃ sp : List (ServerPriority GoString),
      parseServersFromDirectorResponse sortSlice parseText redirect
        = .ok (sp.map (fun s => s.URL))
      ∧ List.Sorted (fun a b => a.Priority ≤ b.Priority) sp
      ∧ sp.Perm (redirectEntries.filterMap
          (fun e => (parseText ⟨e.URL, []⟩).map
            (fun u => (⟨u, (e.pri : Int)⟩ : ServerPriority GoString))))
      ∧ (sp.map (fun s => s.URL)).Perm
          (redirectEntries.filterMap (fun e => parseText ⟨e.URL, []⟩)) :=
  parseServers_sorted_perm sortSlice parseText redirect [] redirectEntries
    (fun l =>
      haveI : IsTotal (ServerPriority GoString) (fun a b => a.Priority ≤ b.Priority) :=
        ⟨fun a b => le_total a.Priority b.Priority⟩
      haveI : IsTrans (ServerPriority GoString) (fun a b => a.Priority ≤ b.Priority) :=
        ⟨fun a b c hab hbc => le_trans hab hbc⟩
      ⟨List.sorted_insertionSort _ _, List.perm_insertionSort _ _⟩)
    (by decide) (by decide) (by decide)

/-! ## Lemmas on the preferred-server loop -/

/-- On items that are neither empty nor "+", the loop appends them to the
preferred servers and leaves `appendCaches` alone. -/
theorem scanPreferred_plain {U : Type} (str : U → String) (len : Nat) :
    ∀ (l : List U) (idx : Nat) (acc : List U) (b : Bool),
      (∀ u ∈ l, str u ≠ "" ∧ str u ≠ "+") →
      scanPreferred str len l idx (acc, b) = .ok (acc ++ l, b) := by
  intro l
  induction l with
  | nil => intro idx acc b _; simp [scanPreferred]
  | cons u rest ih =>
    intro idx acc b h
    have hu := h u (List.mem_cons_self u rest)
    have hrest : ∀ v ∈ rest, str v ≠ "" ∧ str v ≠ "+" :=
      fun v hv => h v (List.mem_cons_of_mem u hv)
    simp only [scanPreferred]
    rw [if_neg hu.1, if_neg hu.2, ih (idx + 1) (acc ++ [u]) b hrest]
    simp

/-- The loop over a list and then one more item. -/
theorem scanPreferred_append {U : Type} (str : U → String) (len : Nat) :
    ∀ (l m : List U) (idx : Nat) (acc : List U) (b : Bool),
      (∀ u ∈ l, str u ≠ "" ∧ str u ≠ "+") →
      scanPreferred str len (l ++ m) idx (acc, b)
        = scanPreferred str len m (idx + l.length) (acc ++ l, b) := by
  intro l
  induction l with
  | nil => intro m idx acc b _; simp
  | cons u rest ih =>
    intro m idx acc b h
    have hu := h u (List.mem_cons_self u rest)
    have hrest : ∀ v ∈ rest, str v ≠ "" ∧ str v ≠ "+" :=
      fun v hv => h v (List.mem_cons_of_mem u hv)
    rw [List.cons_append]
    simp only [scanPreferred]
    rw [if_neg hu.1, if_neg hu.2, ih m (idx + 1) (acc ++ [u]) b hrest]
    simp only [List.length_cons, List.append_assoc, List.singleton_append]
    congr 1
    omega

/-- The loop returns an error exactly when an item is empty or a "+" is not at
the last index. -/
theorem scanPreferred_error_iff {U : Type} (str : U → String) (len : Nat) :
    ∀ (l : List U) (idx : Nat) (st : List U × Bool),
      (∃ e, scanPreferred str len l idx st = .error e)
        ↔ ((∃ u ∈ l, str u = "")
          ∨ (∃ i u, l[i]? = some u ∧ str u = "+" ∧ idx + i ≠ len - 1)) := by
  intro l
  induction l with
  | nil => intro idx st; simp [scanPreferred]
  | cons v rest ih =>
    intro idx st
    obtain ⟨acc, b⟩ := st
    by_cases h1 : str v = ""
    · simp only [scanPreferred]
      rw [if_pos h1]
      constructor
      · intro _
        exact Or.inl ⟨v, List.mem_cons_self v rest, h1⟩
      · intro _
        exact ⟨_, rfl⟩
    · by_cases h2 : str v = "+"
      · by_cases h3 : idx ≠ len - 1
        · simp only [scanPreferred]
          rw [if_neg h1, if_pos h2, if_pos h3]
          constructor
          · intro _
            exact Or.inr ⟨0, v, by simp, h2, by simpa using h3⟩
          · intro _
            exact ⟨_, rfl⟩
        · simp only [scanPreferred]
          rw [if_neg h1, if_pos h2, if_neg h3, ih (idx + 1) (acc, true)]
          constructor
          · rintro (⟨u, hu, hs⟩ | ⟨i, u, hi, hs, hne⟩)
            · exact Or.inl ⟨u, List.mem_cons_of_mem v hu, hs⟩
            · exact Or.inr ⟨i + 1, u, by simpa using hi, hs, by omega⟩
          · rintro (⟨u, hu, hs⟩ | ⟨i, u, hi, hs, hne⟩)
            · rcases List.mem_cons.mp hu with rfl | hu
              · exact absurd hs h1
              · exact Or.inl ⟨u, hu, hs⟩
            · cases i with
              | zero => exact absurd (by simpa using hne) h3
              | succ j => exact Or.inr ⟨j, u, by simpa using hi, hs, by omega⟩
      · simp only [scanPreferred]
        rw [if_neg h1, if_neg h2, ih (idx + 1) (acc ++ [v], b)]
        constructor
        · rintro (⟨u, hu, hs⟩ | ⟨i, u, hi, hs, hne⟩)
          · exact Or.inl ⟨u, List.mem_cons_of_mem v hu, hs⟩
          · exact Or.inr ⟨i + 1, u, by simpa using hi, hs, by omega⟩
        · rintro (⟨u, hu, hs⟩ | ⟨i, u, hi, hs, hne⟩)
          · rcases List.mem_cons.mp hu with rfl | hu
            · exact absurd hs h1
            · exact Or.inl ⟨u, hu, hs⟩
          · cases i with
            | zero =>
              simp only [List.getElem?_cons_zero, Option.some.injEq] at hi
              subst hi
              exact absurd hs h2
            | succ j => exact Or.inr ⟨j, u, by simpa using hi, hs, by omega⟩

/-! ## C8: preferred servers ending in "+" -/

/-- C8: for a list of preferred servers that is empty, or that ends in an item
"+" after items that are neither empty nor "+", `generateSortedObjServers`
returns, without error, the preferred servers (without the "+") in their given
order followed by the director's object servers in the director's order. -/
theorem generateSortedObjServers_plus {U : Type} (str : U → String)
    (dirResp : DirectorResponse U) (pre : List U) (plus : U)
    (hplus : str plus = "+")
    (hpre : ∀ u ∈ pre, str u ≠ "" ∧ str u ≠ "+") :
    generateSortedObjServers str dirResp [] = (dirResp.ObjectServers, none)
      ∧ generateSortedObjServers str dirResp (pre ++ [plus])
        = (pre ++ dirResp.ObjectServers, none) := by
  constructor
  · simp [generateSortedObjServers]
  · have hlen : (pre ++ [plus]).length > 0 := by simp
    have hne : str plus ≠ "" := by rw [hplus]; decide
    have hscan : scanPreferred str (pre ++ [plus]).length (pre ++ [plus]) 0 ([], false)
        = .ok (pre, true) := by
      rw [scanPreferred_append str _ pre [plus] 0 [] false hpre]
      simp only [scanPreferred]
      rw [if_neg hne, if_pos hplus, if_neg (by simp)]
      simp
    simp only [generateSortedObjServers]
    rw [if_pos hlen, hscan]
    simp

/-- C8 at a concrete input: two preferred caches and "+" before the two servers
of the director. -/
theorem generateSortedObjServers_plus_witness :
    generateSortedObjServers id ⟨["https://d1.example", "https://d2.example"]⟩ ([] : List String)
        = (["https://d1.example", "https://d2.example"], none)
      ∧ generateSortedObjServers id ⟨["https://d1.example", "https://d2.example"]⟩
          (["https://p1.example", "https://p2.example"] ++ ["+"])
        = (["https://p1.example", "https://p2.example"]
            ++ ["https://d1.example", "https://d2.example"], none) :=
  generateSortedObjServers_plus id ⟨["https://d1.example", "https://d2.example"]⟩
    ["https://p1.example", "https://p2.example"] "+" rfl (by decide)

/-! ## C9: preferred servers without "+" -/

/-- C9: for a non-empty list of preferred servers with no "+" and no empty
item, `generateSortedObjServers` returns, without error, exactly the preferred
servers in their given order, and none of the director's object servers. -/
theorem generateSortedObjServers_only {U : Type} (str : U → String)
    (dirResp : DirectorResponse U) (preferred : List U)
    (hne : preferred ≠ [])
    (hpre : ∀ u ∈ preferred, str u ≠ "" ∧ str u ≠ "+") :
    generateSortedObjServers str dirResp preferred = (preferred, none) := by
  have hlen : preferred.length > 0 := List.length_pos.mpr hne
  simp only [generateSortedObjServers]
  rw [if_pos hlen, scanPreferred_plain str _ preferred 0 [] false hpre]
  simp

/-- C9 at a concrete input: two preferred caches replace the two servers of the
director. -/
theorem generateSortedObjServers_only_witness :
    generateSortedObjServers id ⟨["https://d1.example", "https://d2.example"]⟩
        ["https://p1.example", "https://p2.example"]
      = (["https://p1.example", "https://p2.example"], none) :=
  generateSortedObjServers_only id ⟨["https://d1.example", "https://d2.example"]⟩
    ["https://p1.example", "https://p2.example"] (by decide) (by decide)

/-! ## C10: the errors of the preferred list -/

/-- C10: `generateSortedObjServers` returns an error if and only if some
preferred server is the empty string or a "+" stands at an index other than the
last of the preferred list; with an error it returns no object servers. -/
theorem generateSortedObjServers_error_iff {U : Type} (str : U → String)
    (dirResp : DirectorResponse U) (preferred : List U) :
    ((generateSortedObjServers str dirResp preferred).2 ≠ none
        ↔ ((∃ u ∈ preferred, str u = "")
          ∨ (∃ i u, preferred[i]? = some u ∧ str u = "+" ∧ i ≠ preferred.length - 1)))
      ∧ ((generateSortedObjServers str dirResp preferred).2 ≠ none →
          (generateSortedObjServers str dirResp preferred).1 = []) := by
  have hiff := scanPreferred_error_iff str preferred.length preferred 0 ([], false)
  simp only [Nat.zero_add] at hiff
  by_cases hlen : preferred.length > 0
  · simp only [generateSortedObjServers]
    rw [if_pos hlen]
    cases hs : scanPreferred str preferred.length preferred 0 ([], false) with
    | error e =>
      rw [hs] at hiff
      have hr := hiff.mp ⟨e, rfl⟩
      simp [hr]
    | ok st =>
      rw [hs] at hiff
      have hr : ¬ ((∃ u ∈ preferred, str u = "")
          ∨ (∃ i u, preferred[i]? = some u ∧ str u = "+" ∧ i ≠ preferred.length - 1)) := by
        intro h
        obtain ⟨e, he⟩ := hiff.mpr h
        simp at he
      obtain ⟨acc, b⟩ := st
      cases b <;> simp [hr]
  · have hnil : preferred = [] := by
      cases preferred with
      | nil => rfl
      | cons a l => simp at hlen
    subst hnil
    simp [generateSortedObjServers]

/-- C10 at a concrete input: a "+" before another preferred server is an error,
and no object server is returned. -/
theorem generateSortedObjServers_error_iff_witness :
    (generateSortedObjServers id ⟨["https://d1.example"]⟩ ["+", "https://p1.example"]).1 = [] :=
  (generateSortedObjServers_error_iff id ⟨["https://d1.example"]⟩
    ["+", "https://p1.example"]).2 (by decide)

/-! ## Lemmas on `recordAd` -/

/-- The look-ups of `updateLatLong` change the coordinates only. -/
theorem updateLatLong_fields (env : DirectorEnv) (ad : ServerAd) :
    (updateLatLong env ad).URL = ad.URL ∧ (updateLatLong env ad).Name = ad.Name
      ∧ (updateLatLong env ad).FromTopology = ad.FromTopology
      ∧ (updateLatLong env ad).DisableDirectorTest = ad.DisableDirectorTest
      ∧ (updateLatLong env ad).Expiration = ad.Expiration
      ∧ (updateLatLong env ad).IOLoad = ad.IOLoad := by
  unfold updateLatLong
  split <;> simp

/-- An instant after now is a positive time away. -/
theorem timeUntil_pos (now t : Int) (h : now < t) : 0 < timeUntil now t := by
  unfold timeUntil
  split
  · norm_num
  · split <;> omega

/-- For an ad whose expiration is unset or in the future, `storeAd` sets the
ad under its URL, with the namespace ads given, and with a time-to-live that
is the time until the expiration when one is set, else the configured TTL
(15 minutes when that is 0). -/
theorem storeAd_sets (env : DirectorEnv) (serverAds : ServerAds) (sAd : ServerAd)
    (namespaceAds : List NamespaceAdV2)
    (hexp : sAd.Expiration = none ∨ ∃ t, sAd.Expiration = some t ∧ env.now < t) :
    (storeAd env serverAds sAd namespaceAds).1 sAd.URL
      = some ⟨⟨sAd, namespaceAds⟩,
          match sAd.Expiration with
          | some t => timeUntil env.now t
          | none => if env.AdvertisementTTL = 0 then 15 * Minute else env.AdvertisementTTL⟩ := by
  rcases hexp with h | ⟨t, h, hlt⟩
  · simp only [storeAd, h]
    by_cases h0 : env.AdvertisementTTL = 0
    · split_ifs <;> simp [ServerAds.set, h0, Minute, Second]
    · split_ifs <;> simp [ServerAds.set, h0]
  · have hpos := timeUntil_pos env.now t hlt
    have hne : timeUntil env.now t ≠ 0 := by omega
    simp only [storeAd, h, if_neg (not_le.mpr hpos)]
    split_ifs <;> simp [ServerAds.set, hne]

/-! ## C11: a new ad is stored under its URL -/

/-- C11: for a server ad with a non-empty URL whose expiration is unset or in
the future, when the store holds no ad for its host (none under the http key,
the https key or the ad's own key), after `recordAd` the store holds under the
key `sAd.URL.String()` an advertisement with that server's name and exactly
the namespace ads passed in. -/
theorem recordAd_stores (env : DirectorEnv) (serverAds : ServerAds) (sAd : ServerAd)
    (namespaceAds : List NamespaceAdV2)
    (hurl : sAd.URL ≠ "")
    (hexp : sAd.Expiration = none ∨ ∃ t, sAd.Expiration = some t ∧ env.now < t)
    (hnone : serverAds (httpURL sAd.URL) = none ∧ serverAds (httpsURL sAd.URL) = none
      ∧ serverAds sAd.URL = none) :
    ∃ item, (recordAd env serverAds sAd namespaceAds).1 sAd.URL = some item
      ∧ item.value.ServerAd.Name = sAd.Name ∧ item.value.NamespaceAds = namespaceAds := by
  obtain ⟨hU, hN, _, _, hE, _⟩ := updateLatLong_fields env sAd
  have hexp2 : (updateLatLong env sAd).Expiration = none
      ∨ ∃ t, (updateLatLong env sAd).Expiration = some t ∧ env.now < t := by rw [hE]; exact hexp
  have hset := storeAd_sets env serverAds (updateLatLong env sAd) namespaceAds hexp2
  have hfind : findExisting serverAds sAd.URL = none := by
    simp [findExisting, hnone.1, hnone.2.1, hnone.2.2]
  have hrec : (recordAd env serverAds sAd namespaceAds).1 sAd.URL
      = (storeAd env serverAds (updateLatLong env sAd) namespaceAds).1
          (updateLatLong env sAd).URL := by
    simp only [recordAd, hU, hurl, if_false, hfind]
  rw [hset] at hrec
  exact ⟨_, hrec, hN, rfl⟩

/-- C11 at a concrete input: a topology ad recorded in the empty store. -/
theorem recordAd_stores_witness :
    ∃ item, (recordAd dirEnv ServerAds.empty topoAdHttp nsAds).1 topoAdHttp.URL = some item
      ∧ item.value.ServerAd.Name = topoAdHttp.Name ∧ item.value.NamespaceAds = nsAds :=
  recordAd_stores dirEnv ServerAds.empty topoAdHttp nsAds (by decide) (Or.inl rfl)
    ⟨rfl, rfl, rfl⟩

/-! ## C12: Pelican ads and topology ads for one host -/

/-- A topology ad that meets a stored Pelican ad is dropped: the store is left
as it was and the empty ad is returned. -/
theorem recordAd_topology_ignored (env : DirectorEnv) (serverAds : ServerAds) (sAd : ServerAd)
    (namespaceAds : List NamespaceAdV2) (existing : Item)
    (hfind : findExisting serverAds sAd.URL = some existing)
    (htopo : sAd.FromTopology = true)
    (hpel : existing.value.ServerAd.FromTopology = false) :
    recordAd env serverAds sAd namespaceAds = (serverAds, ServerAd.zero) := by
  obtain ⟨hU, _, hF, _, _, _⟩ := updateLatLong_fields env sAd
  by_cases hurl : sAd.URL = ""
  · simp [recordAd, hU, hurl]
  · simp [recordAd, hU, hurl, hfind, hF, htopo, hpel]

/-- A Pelican ad whose expiration is unset or in the future and that meets a
stored topology ad takes its place: the topology ad's key is deleted and the
Pelican ad is set under its own URL. -/
theorem recordAd_pelican_replaces (env : DirectorEnv) (serverAds : ServerAds) (sAd : ServerAd)
    (namespaceAds : List NamespaceAdV2) (existing : Item)
    (hurl : sAd.URL ≠ "")
    (hfind : findExisting serverAds sAd.URL = some existing)
    (hpel : sAd.FromTopology = false)
    (htopo : existing.value.ServerAd.FromTopology = true)
    (hexp : sAd.Expiration = none ∨ ∃ t, sAd.Expiration = some t ∧ env.now < t) :
    (∃ item, (recordAd env serverAds sAd namespaceAds).1 sAd.URL = some item
        ∧ item.value.ServerAd.Name = sAd.Name ∧ item.value.ServerAd.FromTopology = false)
      ∧ (existing.value.ServerAd.URL ≠ sAd.URL →
          (recordAd env serverAds sAd namespaceAds).1 existing.value.ServerAd.URL = none) := by
  obtain ⟨hU, hN, hF, _, hE, _⟩ := updateLatLong_fields env sAd
  have hexp2 : (updateLatLong env sAd).Expiration = none
      ∨ ∃ t, (updateLatLong env sAd).Expiration = some t ∧ env.now < t := by rw [hE]; exact hexp
  have hset := storeAd_sets env (serverAds.delete existing.value.ServerAd.URL)
    (updateLatLong env sAd) namespaceAds hexp2
  have hrec : recordAd env serverAds sAd namespaceAds
      = storeAd env (serverAds.delete existing.value.ServerAd.URL) (updateLatLong env sAd)
          namespaceAds := by
    simp only [recordAd, hU, hurl, if_false, hfind, hF, hpel, htopo]
    simp
  rw [hrec]
  constructor
  · rw [hU] at hset
    exact ⟨_, hset, hN, by rw [hF, hpel]⟩
  · intro hne
    rcases hexp2 with h | ⟨t, h, hlt⟩
    · simp only [storeAd, h]
      split_ifs <;> simp [ServerAds.set, ServerAds.delete, hU, hne]
    · have hpos := timeUntil_pos env.now t hlt
      simp only [storeAd, h, if_neg (not_le.mpr hpos)]
      split_ifs <;> simp [ServerAds.set, ServerAds.delete, hU, hne]

/-- C12, at the input where the code departs from it: with a topology ad
stored under `http://cache.example:8000`, a Pelican ad for
`https://cache.example:8000` whose expiration is already past deletes the
topology ad and is not stored itself, so that the topology ad is not replaced
but lost: the store then holds no ad under either key. -/
theorem recordAd_expired_pelican_drops_topology :
    (recordAd dirEnv ServerAds.empty topoAdHttp nsAds).1 "http://cache.example:8000"
        = some ⟨⟨topoAdHttp, nsAds⟩, 15 * Minute⟩
      ∧ (recordAd dirEnv (recordAd dirEnv ServerAds.empty topoAdHttp nsAds).1
          pelicanAdExpired nsAds).1 "http://cache.example:8000" = none
      ∧ (recordAd dirEnv (recordAd dirEnv ServerAds.empty topoAdHttp nsAds).1
          pelicanAdExpired nsAds).1 "https://cache.example:8000" = none := by
  decide

/-! ## C13: the http and https keys of one host -/

/-- C13, at the input where the code departs from it: from the empty store,
a topology ad for `http://cache.example:8000` followed by a topology ad for
`https://cache.example:8000` leaves an item under each of the two keys. -/
theorem recordAd_both_schemes :
    (recordAd dirEnv (recordAd dirEnv ServerAds.empty topoAdHttp nsAds).1
          topoAdHttps nsAds).1 "http://cache.example:8000"
        = some ⟨⟨topoAdHttp, nsAds⟩, 15 * Minute⟩
      ∧ (recordAd dirEnv (recordAd dirEnv ServerAds.empty topoAdHttp nsAds).1
          topoAdHttps nsAds).1 "https://cache.example:8000"
        = some ⟨⟨topoAdHttps, nsAds⟩, 15 * Minute⟩ := by
  decide

/-! ## C14: the time-to-live of a stored ad -/

/-- C14, as stated, fails: with `Director.AdvertisementTTL` at 15 minutes, an
ad that expires in one hour is stored with a time-to-live of one hour, not of
the minimum of the two. -/
theorem recordAd_ttl_counterexample :
    (recordAd dirEnv ServerAds.empty pelicanAdHour nsAds).1 "https://cache.example:8000"
        = some ⟨⟨pelicanAdHour, nsAds⟩, 60 * Minute⟩
      ∧ dirEnv.AdvertisementTTL = 15 * Minute
      ∧ min (timeUntil dirEnv.now (1000 * Second + 60 * Minute)) dirEnv.AdvertisementTTL
        = 15 * Minute := by
  decide

/-- C14, amended: when `recordAd` stores an ad (its URL is not empty, it is not
a topology ad meeting a stored Pelican ad, and its expiration is unset or in
the future), the time-to-live of the stored item is the time until the ad's
explicit expiration when it has one, and `Director.AdvertisementTTL`
otherwise (15 minutes when that parameter is 0). -/
theorem recordAd_ttl (env : DirectorEnv) (serverAds : ServerAds) (sAd : ServerAd)
    (namespaceAds : List NamespaceAdV2)
    (hurl : sAd.URL ≠ "")
    (hshadow : ∀ existing, findExisting serverAds sAd.URL = some existing →
      ¬ (sAd.FromTopology = true ∧ existing.value.ServerAd.FromTopology = false))
    (hexp : sAd.Expiration = none ∨ ∃ t, sAd.Expiration = some t ∧ env.now < t) :
    ∃ item, (recordAd env serverAds sAd namespaceAds).1 sAd.URL = some item
      ∧ item.ttl = (match sAd.Expiration with
          | some t => timeUntil env.now t
          | none => if env.AdvertisementTTL = 0 then 15 * Minute else env.AdvertisementTTL) := by
  obtain ⟨hU, hN, hF, _, hE, _⟩ := updateLatLong_fields env sAd
  have hexp2 : (updateLatLong env sAd).Expiration = none
      ∨ ∃ t, (updateLatLong env sAd).Expiration = some t ∧ env.now < t := by rw [hE]; exact hexp
  cases hfind : findExisting serverAds sAd.URL with
  | none =>
    have hset := storeAd_sets env serverAds (updateLatLong env sAd) namespaceAds hexp2
    have hrec : recordAd env serverAds sAd namespaceAds
        = storeAd env serverAds (updateLatLong env sAd) namespaceAds := by
      simp only [recordAd, hU, hurl, if_false, hfind]
    rw [hrec, ← hU, hset]
    exact ⟨_, rfl, by rw [hE]⟩
  | some existing =>
    have hs := hshadow existing hfind
    have hcond : ((updateLatLong env sAd).FromTopology
        && !existing.value.ServerAd.FromTopology) = false := by
      rw [hF]
      cases h1 : sAd.FromTopology <;> cases h2 : existing.value.ServerAd.FromTopology <;>
        simp_all
    have hrec : ∃ store ad, ad.URL = sAd.URL ∧ ad.Expiration = sAd.Expiration
        ∧ recordAd env serverAds sAd namespaceAds = storeAd env store ad namespaceAds := by
      simp only [recordAd, hU, hurl, if_false, hfind, hcond]
      refine ⟨_, _, ?_, ?_, rfl⟩
      · split_ifs <;> simp [hU]
      · split_ifs <;> simp [hE]
    obtain ⟨store, ad, hadU, hadE, hrec⟩ := hrec
    have hexp3 : ad.Expiration = none ∨ ∃ t, ad.Expiration = some t ∧ env.now < t := by
      rw [hadE]; exact hexp
    have hset := storeAd_sets env store ad namespaceAds hexp3
    rw [hrec, ← hadU, hset]
    exact ⟨_, rfl, by rw [hadE]⟩

/-- C14 at a concrete input: an ad that expires in one hour, recorded in the
empty store. -/
theorem recordAd_ttl_witness :
    ∃ item, (recordAd dirEnv ServerAds.empty pelicanAdHour nsAds).1 pelicanAdHour.URL = some item
      ∧ item.ttl = (match pelicanAdHour.Expiration with
          | some t => timeUntil dirEnv.now t
          | none =>
            if dirEnv.AdvertisementTTL = 0 then 15 * Minute else dirEnv.AdvertisementTTL) :=
  recordAd_ttl dirEnv ServerAds.empty pelicanAdHour nsAds (by decide)
    (fun _ h => absurd h (by simp [findExisting, ServerAds.empty]))
    (Or.inr ⟨_, rfl, by decide⟩)

/-! ## C15: the ad returned by `recordAd` -/

/-- C15, at the input where the code departs from it: a Pelican ad with
`DisableDirectorTest` set is recorded in the store, and `recordAd` returns the
empty `ServerAd`, not the recorded one. -/
theorem recordAd_returns_empty :
    (recordAd dirEnv ServerAds.empty pelicanAdNoTest nsAds).1 "https://cache.example:8000"
        = some ⟨⟨pelicanAdNoTest, nsAds⟩, 15 * Minute⟩
      ∧ (recordAd dirEnv ServerAds.empty pelicanAdNoTest nsAds).2 = ServerAd.zero
      ∧ ServerAd.zero.URL = "" ∧ ServerAd.zero.Name = "" := by
  decide

/-! ## C16: a single failed attempt -/

/-- C16: when the transfer of `DoGet` fails with a `TransferErrors` that wraps
exactly one error and that error is a `TransferAttemptError`, `DoGet` returns
that `TransferAttemptError` itself, not wrapped in "failed to download file",
and no transfer results. -/
theorem DoGet_single_attempt_error (transferResults : List TransferResults)
    (shutdownErr lookupErr : Option GoError) (text : String) (inner : Option GoError)
    (hfail : doGetOutcome transferResults shutdownErr lookupErr
      = (false, some (.transferErrors [.transferAttemptError text inner]))) :
    DoGet transferResults shutdownErr lookupErr
      = ([], some (.transferAttemptError text inner)) := by
  simp [DoGet, hfail, asTransferErrors, asTransferAttemptError]

/-- C16 at a concrete input: one result, which carries a `TransferErrors` with
one failed attempt. -/
theorem DoGet_single_attempt_error_witness :
    DoGet [⟨0, some (.transferErrors [attemptError])⟩] none none = ([], some attemptError) :=
  DoGet_single_attempt_error [⟨0, some (.transferErrors [attemptError])⟩] none none _ none rfl

/-! ## C17: the endpoints of the federation -/

/-- C17, as stated, fails: in a process that is a director and not a registry,
with nothing configured and nothing discovered, the registry endpoint stays
empty and the JWKS endpoint becomes the external web URL followed by
`/.well-known/issuer.jwks`; neither is the server's external web URL. -/
theorem discoverFederationImpl_counterexample :
    directorOnly.IsEnabled .DirectorType = true
      ∧ discoverFederationImpl directorOnly
        = (⟨"https://director.example:8444", "https://director.example:8444", "",
            "https://director.example:8444/.well-known/issuer.jwks", ""⟩, none)
      ∧ directorOnly.ExternalWebUrl = "https://director.example:8444" := by
  decide

/-- C17, amended: `discoverFederationImpl` resolves the director, registry,
JWKS and broker endpoints field by field. A value configured out of band is
kept in preference to the discovered one; a field that is not configured takes
the discovered value; a field that is still missing takes a default drawn
from the server's own external web URL when the process runs the service the
field belongs to, the external web URL for the director endpoint of a
director, the registry endpoint of a registry and the broker endpoint of a
broker, and the external web URL followed by `/.well-known/issuer.jwks` for
the JWKS endpoint of a director; each value is returned with `https://` put
before it when it is not empty and has no http or https scheme. -/
theorem discoverFederationImpl_fields (env : FedEnv) (federationUrl : FedURL)
    (metadata : FederationDiscovery)
    (hparse : env.urlParse (wrapWithHttpsIfNeeded env.DiscoveryUrl) = .ok federationUrl)
    (hpath : ¬ (federationUrl.Path ≠ "" ∧ federationUrl.Host ≠ ""))
    (hdisc : discoverOrSkip env (wrapWithHttpsIfNeeded env.DiscoveryUrl)
      (hostFromPath federationUrl) = .ok metadata) :
    (discoverFederationImpl env).2 = none
      ∧ (discoverFederationImpl env).1.DirectorEndpoint
        = wrapWithHttpsIfNeeded (firstSet env.DirectorUrl metadata.DirectorEndpoint
            (if env.IsEnabled .DirectorType = true then env.ExternalWebUrl else ""))
      ∧ (discoverFederationImpl env).1.RegistryEndpoint
        = wrapWithHttpsIfNeeded (firstSet env.RegistryUrl metadata.RegistryEndpoint
            (if env.IsEnabled .RegistryType = true then env.ExternalWebUrl else ""))
      ∧ (discoverFederationImpl env).1.JwksUri
        = wrapWithHttpsIfNeeded (firstSet env.JwkUrl metadata.JwksUri
            (if env.IsEnabled .DirectorType = true
              then env.ExternalWebUrl ++ "/.well-known/issuer.jwks" else ""))
      ∧ (discoverFederationImpl env).1.BrokerEndpoint
        = wrapWithHttpsIfNeeded (firstSet env.BrokerUrl metadata.BrokerEndpoint
            (if env.IsEnabled .BrokerType = true then env.ExternalWebUrl else "")) := by
  by_cases hall : env.DirectorUrl ≠ "" ∧ env.RegistryUrl ≠ "" ∧ env.JwkUrl ≠ ""
      ∧ env.BrokerUrl ≠ ""
  · obtain ⟨h1, h2, h3, h4⟩ := hall
    have hbody : ∃ d, discoverFederationBody env
        = (⟨d, env.DirectorUrl, env.RegistryUrl, env.JwkUrl, env.BrokerUrl⟩, none) := by
      simp only [discoverFederationBody, FederationDiscovery.zero]
      rw [if_pos ⟨h1, h2, h3, h4⟩]
      split_ifs
      · exact ⟨_, rfl⟩
      · exact ⟨_, rfl⟩
    obtain ⟨d, hbody⟩ := hbody
    simp only [discoverFederationImpl, hbody, fedDefaults, firstSet]
    simp [h1, h2, h3, h4]
  · have hbody : ∃ d, discoverFederationBody env
        = (⟨d, if env.DirectorUrl = "" then metadata.DirectorEndpoint else env.DirectorUrl,
            if env.RegistryUrl = "" then metadata.RegistryEndpoint else env.RegistryUrl,
            if env.JwkUrl = "" then metadata.JwksUri else env.JwkUrl,
            if env.BrokerUrl = "" ∧ metadata.BrokerEndpoint ≠ "" then metadata.BrokerEndpoint
              else env.BrokerUrl⟩, none) := by
      simp only [discoverFederationBody, FederationDiscovery.zero, hparse, hdisc]
      rw [if_neg hall, if_neg hpath]
      exact ⟨_, rfl⟩
    obtain ⟨d, hbody⟩ := hbody
    simp only [discoverFederationImpl, hbody, fedDefaults, firstSet]
    refine ⟨trivial, ?_, ?_, ?_, ?_⟩
    · by_cases h1 : env.DirectorUrl = "" <;> by_cases m1 : metadata.DirectorEndpoint = "" <;>
        simp [h1, m1]
    · by_cases h1 : env.RegistryUrl = "" <;> by_cases m1 : metadata.RegistryEndpoint = "" <;>
        simp [h1, m1]
    · by_cases h1 : env.JwkUrl = "" <;> by_cases m1 : metadata.JwksUri = "" <;>
        simp [h1, m1]
    · by_cases h1 : env.BrokerUrl = "" <;> by_cases m1 : metadata.BrokerEndpoint = "" <;>
        simp [h1, m1]

/-- C17 at a concrete input: a director with nothing configured. -/
theorem discoverFederationImpl_fields_witness :
    (discoverFederationImpl directorOnly).2 = none
      ∧ (discoverFederationImpl directorOnly).1.DirectorEndpoint
        = wrapWithHttpsIfNeeded (firstSet directorOnly.DirectorUrl
            FederationDiscovery.zero.DirectorEndpoint
            (if directorOnly.IsEnabled .DirectorType = true
              then directorOnly.ExternalWebUrl else "")) :=
  ⟨(discoverFederationImpl_fields directorOnly ⟨"", ""⟩ FederationDiscovery.zero rfl
      (by decide) rfl).1,
    (discoverFederationImpl_fields directorOnly ⟨"", ""⟩ FederationDiscovery.zero rfl
      (by decide) rfl).2.1⟩

/-! ## C18: the issuer URL of the server -/

/-- The deferred function leaves the URL and the error as they are. -/
theorem populateIssuerUrl_fields (cfg : IssuerConfig) (issuerUrl : String) (err : Option String) :
    (populateIssuerUrl cfg issuerUrl err).issuerUrl = issuerUrl
      ∧ (populateIssuerUrl cfg issuerUrl err).err = err := by
  unfold populateIssuerUrl
  split <;> exact ⟨rfl, rfl⟩

/-- C18: `GetServerIssuerURL` picks the issuer URL in this order of precedence:
`Server.IssuerUrl` when it is not empty; otherwise
`https://<Server.IssuerHostname>:<Server.IssuerPort>` when the hostname is set,
with an error when the port is 0; otherwise `Server.ExternalWebUrl`. The URL
picked is returned when `url.Parse` accepts it, and every error comes with an
empty URL. -/
theorem GetServerIssuerURL_precedence (parseError : String → Option String)
    (cfg : IssuerConfig) :
    (cfg.IssuerUrl ≠ "" → parseError cfg.IssuerUrl = none →
        (GetServerIssuerURL parseError cfg).issuerUrl = cfg.IssuerUrl
          ∧ (GetServerIssuerURL parseError cfg).err = none)
      ∧ (cfg.IssuerUrl = "" → cfg.IssuerHostname ≠ "" → cfg.IssuerPort = 0 →
        (GetServerIssuerURL parseError cfg).err ≠ none)
      ∧ (cfg.IssuerUrl = "" → cfg.IssuerHostname ≠ "" → cfg.IssuerPort ≠ 0 →
        parseError ("https://" ++ cfg.IssuerHostname ++ ":" ++ toString cfg.IssuerPort) = none →
        (GetServerIssuerURL parseError cfg).issuerUrl
            = "https://" ++ cfg.IssuerHostname ++ ":" ++ toString cfg.IssuerPort
          ∧ (GetServerIssuerURL parseError cfg).err = none)
      ∧ (cfg.IssuerUrl = "" → cfg.IssuerHostname = "" → parseError cfg.ExternalWebUrl = none →
        (GetServerIssuerURL parseError cfg).issuerUrl = cfg.ExternalWebUrl
          ∧ (GetServerIssuerURL parseError cfg).err = none)
      ∧ ((GetServerIssuerURL parseError cfg).err ≠ none →
        (GetServerIssuerURL parseError cfg).issuerUrl = "") := by
  refine ⟨?_, ?_, ?_, ?_, ?_⟩
  · intro h1 hp
    simp [GetServerIssuerURL, populateIssuerUrl, h1, hp]
  · intro h1 h2 h3
    simp [GetServerIssuerURL, populateIssuerUrl, h1, h2, h3]
  · intro h1 h2 h3 hp
    simp [GetServerIssuerURL, populateIssuerUrl, h1, h2, h3, hp]
  · intro h1 h2 hp
    simp [GetServerIssuerURL, populateIssuerUrl, h1, h2, hp]
  · intro h
    generalize hq : GetServerIssuerURL parseError cfg = out at h ⊢
    simp only [GetServerIssuerURL] at hq
    repeat' (split at hq)
    all_goals subst hq
    all_goals first
      | exact (populateIssuerUrl_fields _ _ _).1
      | exact absurd (populateIssuerUrl_fields _ _ _).2 h

/-- C18 at a concrete input: with no issuer URL and the host `issuer.example`
and port 8443 configured, the issuer URL is `https://issuer.example:8443`. -/
theorem GetServerIssuerURL_precedence_witness :
    (GetServerIssuerURL (fun _ => none) issuerByHost).issuerUrl = "https://issuer.example:8443"
      ∧ (GetServerIssuerURL (fun _ => none) issuerByHost).err = none :=
  (GetServerIssuerURL_precedence (fun _ => none) issuerByHost).2.2.1 rfl (by decide)
    (by decide) rfl

/-! ## C19: the names of the enabled servers -/

/-- The order of strings is total. -/
theorem lexLe_total : ∀ a b : List Char, lexLe a b = true ∨ lexLe b a = true := by
  intro a
  induction a with
  | nil => intro b; simp [lexLe]
  | cons x xs ih =>
    intro b
    cases b with
    | nil => simp [lexLe]
    | cons y ys =>
      simp only [lexLe, Bool.or_eq_true, decide_eq_true_eq, Bool.and_eq_true, beq_iff_eq]
      rcases Nat.lt_trichotomy x.toNat y.toNat with h | h | h
      · exact Or.inl (Or.inl h)
      · rcases ih ys with h2 | h2
        · exact Or.inl (Or.inr ⟨h, h2⟩)
        · exact Or.inr (Or.inr ⟨h.symm, h2⟩)
      · exact Or.inr (Or.inl h)

/-- The order of strings is transitive. -/
theorem lexLe_trans : ∀ a b c : List Char, lexLe a b = true → lexLe b c = true →
    lexLe a c = true := by
  intro a
  induction a with
  | nil => intro b c _ _; simp [lexLe]
  | cons x xs ih =>
    intro b c hab hbc
    cases b with
    | nil => simp [lexLe] at hab
    | cons y ys =>
      cases c with
      | nil => simp [lexLe] at hbc
      | cons z zs =>
        simp only [lexLe, Bool.or_eq_true, decide_eq_true_eq, Bool.and_eq_true,
          beq_iff_eq] at hab hbc ⊢
        rcases hab with h1 | ⟨h1, h1r⟩
        · rcases hbc with h2 | ⟨h2, _⟩
          · exact Or.inl (by omega)
          · exact Or.inl (by omega)
        · rcases hbc with h2 | ⟨h2, h2r⟩
          · exact Or.inl (by omega)
          · exact Or.inr ⟨by omega, ih ys zs h1r h2r⟩

/-- The names collected before sorting: those of the enabled servers among
cache, local cache, origin, director and registry, in that order. -/
theorem GetEnabledServerString_eq (name : ServerType → String) (IsEnabled : ServerType → Bool)
    (lowerCase : Bool) :
    GetEnabledServerString name IsEnabled lowerCase
      = if lowerCase then
          (sortStrings (([ServerType.CacheType, .LocalCacheType, .OriginType, .DirectorType,
            .RegistryType].filter IsEnabled).map name)).map strToLower
        else
          sortStrings (([ServerType.CacheType, .LocalCacheType, .OriginType, .DirectorType,
            .RegistryType].filter IsEnabled).map name) := by
  simp only [GetEnabledServerString]
  cases h1 : IsEnabled .CacheType <;> cases h2 : IsEnabled .LocalCacheType <;>
    cases h3 : IsEnabled .OriginType <;> cases h4 : IsEnabled .DirectorType <;>
    cases h5 : IsEnabled .RegistryType <;> simp [List.filter, h1, h2, h3, h4, h5]

/-- C19, at the input where the code departs from it: with only the broker
enabled, `GetEnabledServerString` returns the empty list for both values of
`lowerCase`; the name of the enabled broker is missing. -/
theorem GetEnabledServerString_broker_missing :
    brokerOnly .BrokerType = true
      ∧ GetEnabledServerString serverTypeName brokerOnly true = []
      ∧ GetEnabledServerString serverTypeName brokerOnly false = [] := by
  decide

/-- What the code does for the five server types it tests: for every set of
enabled servers and for both values of `lowerCase`, `GetEnabledServerString`
returns the names of the enabled servers among cache, local cache, origin,
director and registry, each exactly once, in lower case when `lowerCase` is
set; the list is in alphabetical order, given for `lowerCase` that putting two
names in lower case keeps their order. -/
theorem GetEnabledServerString_sorted_perm (name : ServerType → String)
    (IsEnabled : ServerType → Bool) (lowerCase : Bool)
    (hlower : ∀ a b : ServerType, strLe (name a) (name b) = true →
      strLe (strToLower (name a)) (strToLower (name b)) = true) :
    List.Sorted (fun a b => strLe a b = true) (GetEnabledServerString name IsEnabled lowerCase)
      ∧ (GetEnabledServerString name IsEnabled lowerCase).Perm
        (([ServerType.CacheType, .LocalCacheType, .OriginType, .DirectorType,
            .RegistryType].filter IsEnabled).map
          (fun t => if lowerCase then strToLower (name t) else name t)) := by
  haveI : IsTotal String (fun a b => strLe a b = true) := ⟨fun a b => lexLe_total a.data b.data⟩
  haveI : IsTrans String (fun a b => strLe a b = true) :=
    ⟨fun a b c hab hbc => lexLe_trans a.data b.data c.data hab hbc⟩
  rw [GetEnabledServerString_eq]
  generalize [ServerType.CacheType, .LocalCacheType, .OriginType, .DirectorType,
    .RegistryType].filter IsEnabled = shown
  have hsorted : List.Sorted (fun a b => strLe a b = true) (sortStrings (shown.map name)) :=
    List.sorted_insertionSort _ _
  have hperm : (sortStrings (shown.map name)).Perm (shown.map name) :=
    List.perm_insertionSort _ _
  cases lowerCase with
  | false => simpa using ⟨hsorted, hperm⟩
  | true =>
    simp only [if_true]
    constructor
    · rw [List.Sorted, List.pairwise_map]
      refine List.Pairwise.imp_of_mem ?_ hsorted
      intro a b ha hb hab
      obtain ⟨ta, _, rfl⟩ := List.mem_map.mp (hperm.mem_iff.mp ha)
      obtain ⟨tb, _, rfl⟩ := List.mem_map.mp (hperm.mem_iff.mp hb)
      exact hlower ta tb hab
    · have := hperm.map strToLower
      simpa [List.map_map] using this

/-- The list at a concrete input: an origin, a cache and a registry, in lower
case. -/
theorem GetEnabledServerString_sorted_perm_witness :
    List.Sorted (fun a b => strLe a b = true)
        (GetEnabledServerString serverTypeName originCacheRegistry true)
      ∧ (GetEnabledServerString serverTypeName originCacheRegistry true).Perm
        (([ServerType.CacheType, .LocalCacheType, .OriginType, .DirectorType,
            .RegistryType].filter originCacheRegistry).map
          (fun t => if true then strToLower (serverTypeName t) else serverTypeName t)) :=
  GetEnabledServerString_sorted_perm serverTypeName originCacheRegistry true
    (by intro a b; cases a <;> cases b <;> decide)

/-! ## C20: `Client.DirectorRetries` after `SetClientDefaults` -/

/-- The value of `Client.DirectorRetries` after `SetClientDefaults`, from the
value `n` read once the default of 5 is in place: for the plugin the double of
`n`, else `n`, and 5 in place of a value below 1. -/
theorem SetClientDefaults_get (v : ClientViper) :
    (SetClientDefaults v).DirectorRetries.get 0
      = if ViperKey.get false { v.IsPlugin with default := some false } = true then
          (if wrapInt64 (2 * ViperKey.get 0 { v.DirectorRetries with default := some 5 }) < 1
            then 5
            else wrapInt64 (2 * ViperKey.get 0 { v.DirectorRetries with default := some 5 }))
        else
          (if ViperKey.get 0 { v.DirectorRetries with default := some 5 } < 1 then 5
            else ViperKey.get 0 { v.DirectorRetries with default := some 5 }) := by
  simp only [SetClientDefaults]
  by_cases hp : ViperKey.get false { v.IsPlugin with default := some false } = true
  · rw [if_pos hp, if_pos hp]
    by_cases h : wrapInt64 (2 * ViperKey.get 0 { v.DirectorRetries with default := some 5 }) < 1
    · rw [if_pos (by simpa [ViperKey.get] using h), if_pos h]
      simp [ViperKey.get]
    · rw [if_neg (by simpa [ViperKey.get] using h), if_neg h]
      simp [ViperKey.get]
  · rw [if_neg hp, if_neg hp]
    by_cases h : ViperKey.get 0 { v.DirectorRetries with default := some 5 } < 1
    · rw [if_pos h, if_pos h]
      simp [ViperKey.get]
    · rw [if_neg h, if_neg h]

/-- C20, as stated, fails: for a plugin the value is doubled in 64-bit
arithmetic before the test, and the configured value `-(2^62) - 1`, which is
below 1, is not replaced by 5: its double wraps around to
9223372036854775806, which is kept. -/
theorem SetClientDefaults_retries_counterexample :
    ViperKey.get 0 { pluginBelowRange.DirectorRetries with default := some 5 } = -(2 ^ 62) - 1
      ∧ (SetClientDefaults pluginBelowRange).DirectorRetries.get 0 = 9223372036854775806 := by
  decide

/-- C20, amended: after `SetClientDefaults` on the global configuration,
`Client.DirectorRetries` is at least 1 whatever was configured, so that a
client whose configuration holds that value never takes the `numRetries < 1`
fallback of `queryDirector`; a value below 1 is replaced by 5, for a plugin
(whose value is doubled first, in 64-bit arithmetic) as long as the value is
not below `-(2^62)`. -/
theorem SetClientDefaults_retries (v : ClientViper) (cfg : Config)
    (hcfg : cfg.DirectorRetries = (SetClientDefaults v).DirectorRetries.get 0) :
    1 ≤ (SetClientDefaults v).DirectorRetries.get 0
      ∧ (ViperKey.get 0 { v.DirectorRetries with default := some 5 } < 1 →
          (ViperKey.get false { v.IsPlugin with default := some false } = false
            ∨ -(2 ^ 62) ≤ ViperKey.get 0 { v.DirectorRetries with default := some 5 }) →
          (SetClientDefaults v).DirectorRetries.get 0 = 5)
      ∧ numRetries cfg = cfg.DirectorRetries := by
  rw [SetClientDefaults_get] at hcfg ⊢
  generalize ViperKey.get 0 { v.DirectorRetries with default := some 5 } = n at hcfg ⊢
  generalize ViperKey.get false { v.IsPlugin with default := some false } = plugin at hcfg ⊢
  refine ⟨?_, ?_, ?_⟩
  · split_ifs <;> omega
  · intro hlt hlow
    rcases hlow with hp | hlow
    · subst hp
      simp only [Bool.false_eq_true, if_false]
      rw [if_pos hlt]
    · have hw : wrapInt64 (2 * n) = 2 * n := by
        simp only [wrapInt64]
        omega
      rw [hw]
      split_ifs <;> omega
  · have hge : 1 ≤ cfg.DirectorRetries := by
      rw [hcfg]
      split_ifs <;> omega
    simp only [numRetries]
    rw [if_neg (by omega)]

/-- C20 at a concrete input: a configured value of 0 becomes 5. -/
theorem SetClientDefaults_retries_witness :
    1 ≤ (SetClientDefaults zeroRetries).DirectorRetries.get 0
      ∧ (SetClientDefaults zeroRetries).DirectorRetries.get 0 = 5
      ∧ numRetries ⟨5, false, "7.10.0", false⟩ = (5 : Int) :=
  have h := SetClientDefaults_retries zeroRetries ⟨5, false, "7.10.0", false⟩ (by decide)
  ⟨h.1, h.2.1 (by decide) (Or.inl (by decide)), h.2.2⟩

/-! ## C21: the error of a final response -/

/-- The `fromDirector` that an iteration of the loop leaves behind is
`fromPelican` of its response. -/
theorem attempt_fromDirector (cfg : Config) (lib : Lib) (w : World) (verb url token : String)
    (idx : Nat) (cur : Cursor) (resp : Response) (body : String) (fd : Bool)
    (h : (attempt cfg lib w verb url token idx cur).value = .stop resp body fd
      ∨ (attempt cfg lib w verb url token idx cur).value = .again resp body fd) :
    fd = fromPelican cfg resp := by
  generalize hq : attempt cfg lib w verb url token idx cur = out at h
  simp only [attempt] at hq
  repeat' (split at hq)
  all_goals subst hq
  all_goals simp at h
  all_goals simp [← h.1, ← h.2.2]

/-- The `fromDirector` with which the loop is left is `fromPelican` of the last
response. -/
theorem retryLoop_fromDirector (cfg : Config) (lib : Lib) (w : World) (verb url token : String) :
    ∀ (more idx : Nat) (cur : Cursor) (resp : Response) (body : String) (fd : Bool),
      (retryLoop cfg lib w verb url token more idx cur).value = .finished resp body fd →
      fd = fromPelican cfg resp := by
  intro more
  induction more with
  | zero =>
    intro idx cur resp body fd h
    generalize ha : attempt cfg lib w verb url token idx cur = a at h
    have hfd := attempt_fromDirector cfg lib w verb url token idx cur resp body fd
    rw [ha] at hfd
    rw [retryLoop, ha] at h
    obtain ⟨evs, cur1, val⟩ := a
    cases val <;> simp at h
    · exact hfd (Or.inl (by simp [h]))
    · exact hfd (Or.inr (by simp [h]))
  | succ k ih =>
    intro idx cur resp body fd h
    generalize ha : attempt cfg lib w verb url token idx cur = a at h
    have hfd := attempt_fromDirector cfg lib w verb url token idx cur resp body fd
    rw [ha] at hfd
    rw [retryLoop, ha] at h
    obtain ⟨evs, cur1, val⟩ := a
    cases val <;> simp at h
    · exact hfd (Or.inl (by simp [h]))
    · exact ih _ _ _ _ _ h
/-- C21, as stated, fails: a PROPFIND answered with a 207, which is neither a
307 nor a trigger of the PUT fallback, returns no error at all; and a GET
answered with a 500 that is sent as `application/json` but is not JSON returns
the unmarshal error, whose text is not "500: upstream timed out". -/
theorem queryDirector_error_text_counterexample :
    (queryDirector cfgOne libPlain proxyingDirector "PROPFIND" objUrl "" ⟨0, 0⟩).value.err = none
      ∧ (queryDirector cfgOne libPlain proxyingDirector "PROPFIND" objUrl "" ⟨0, 0⟩).value.resp
          = some multiStatus
      ∧ multiStatus.StatusCode = 207
      ∧ (queryDirector cfgOne libPlain failingDirector "GET" objUrl "" ⟨0, 0⟩).value
          = ⟨some jsonServerError, some (.unmarshal "invalid character")⟩
      ∧ jsonServerError.StatusCode = 500 := by
  refine ⟨?_, ?_, rfl, ?_, rfl⟩
  · simp [queryDirector]
    decide
  · simp [queryDirector]
    decide
  · simp [queryDirector]
    decide

/-- C21, amended: let the retry loop end with a response that is not a 307, is
not a 207 answering a PROPFIND, does not trigger the PUT fallback (a 404 to a
DELETE whose body contains "page not found") and, when its content type is
`application/json`, unmarshals as JSON with the message `msg`. The message of
the response is `msg` when the response is JSON and `msg` is not empty, and the
body otherwise. Then `queryDirector` returns the response with the error
`StatusCodeError(404)` when the status is 404, the response is attributed to
the director (a Pelican `Server` header, the parameter
`Client.AssumeDirectorServerHeader`, or a JSON body) and the message is "All
sources report object was not found" or "Object not found at any cache"; in
every other case the error has the text "<status>: <message>". -/
theorem queryDirector_error_text (cfg : Config) (lib : Lib) (w : World) (verb : String)
    (pUrl : PelicanURL) (token : String) (cur : Cursor) (url : String) (resp : Response)
    (body : String) (fd : Bool) (msg : String)
    (hurl : lib.resourceUrl pUrl = .ok url)
    (hloop : (retryLoop cfg lib w verb url token (numRetries cfg - 1).toNat 0 cur).value
      = .finished resp body fd)
    (h307 : resp.StatusCode ≠ 307)
    (h207 : ¬ (resp.StatusCode = 207 ∧ verb = "PROPFIND"))
    (hput : ¬ (resp.StatusCode = 404 ∧ verb = "DELETE"
      ∧ strContains (strToLower body) "page not found" = true))
    (hjson : lib.hasContentType resp "application/json" = true → lib.unmarshalMsg body = .ok msg) :
    (queryDirector cfg lib w verb pUrl token cur).value
      = ⟨some resp, some (
          if resp.StatusCode = 404
              ∧ (fromPelican cfg resp = true ∨ lib.hasContentType resp "application/json" = true)
              ∧ ((if lib.hasContentType resp "application/json" = true ∧ msg ≠ "" then msg
                    else body) = "All sources report object was not found"
                ∨ (if lib.hasContentType resp "application/json" = true ∧ msg ≠ "" then msg
                    else body) = "Object not found at any cache")
          then .statusCode 404
          else .message (toString resp.StatusCode ++ ": "
            ++ (if lib.hasContentType resp "application/json" = true ∧ msg ≠ "" then msg
                  else body)))⟩ := by
  have hfd := retryLoop_fromDirector cfg lib w verb url token _ _ _ _ _ _ hloop
  subst hfd
  rw [queryDirector, hurl]
  simp only [hloop]
  by_cases hj : lib.hasContentType resp "application/json" = true
  · have hm := hjson hj
    by_cases hmsg : msg = ""
    · by_cases h404 : resp.StatusCode = 404 <;> by_cases hv : verb = "DELETE" <;>
        by_cases hb : strContains (strToLower body) "page not found" = true <;>
        by_cases hp : verb = "PROPFIND" <;> by_cases h2 : resp.StatusCode = 207 <;>
        simp_all <;> split_ifs <;> simp_all
    · by_cases h404 : resp.StatusCode = 404 <;> by_cases hv : verb = "DELETE" <;>
        by_cases hb : strContains (strToLower body) "page not found" = true <;>
        by_cases hp : verb = "PROPFIND" <;> by_cases h2 : resp.StatusCode = 207 <;>
        simp_all <;> split_ifs <;> simp_all
  · by_cases h404 : resp.StatusCode = 404 <;> by_cases hv : verb = "DELETE" <;>
      by_cases hb : strContains (strToLower body) "page not found" = true <;>
      by_cases hp : verb = "PROPFIND" <;> by_cases h2 : resp.StatusCode = 207 <;>
      simp_all <;> split_ifs <;> simp_all

/-- C21 at a concrete input: a GET answered by a Pelican director with the 404
"Object not found at any cache" returns `StatusCodeError(404)`. -/
theorem queryDirector_error_text_witness :
    (queryDirector cfgOne libPlain emptyCaches "GET" objUrl "" ⟨0, 0⟩).value
      = ⟨some notAtAnyCache, some (.statusCode 404)⟩ := by
  have h := queryDirector_error_text cfgOne libPlain emptyCaches "GET" objUrl "" ⟨0, 0⟩
    objRequestUrl notAtAnyCache "Object not found at any cache" true "" (by decide) (by decide)
    (by decide) (by decide) (by decide) (fun h => absurd h (by decide))
  rw [h]
  decide

/-! ## C22: the direction of `DoCopy` -/

/-- What `DoCopy` does on two texts that parse: a PUT when the destination has
a scheme and the source has none or `file`; else a GET when the destination has
no scheme or `file` and the source has a scheme; else the error. The error is
reached exactly when neither has a scheme, or when the source has a scheme
other than `file` and so has the destination. -/
theorem DoCopy_failed_iff (parse : String → Except String CopyURL)
    (sourceFile destination : String) (recursive : Bool) (parsedSrc parsedDest : CopyURL)
    (hsrc : parse sourceFile = .ok parsedSrc) (hdest : parse destination = .ok parsedDest) :
    DoCopy parse sourceFile destination recursive
        = .failed ("unable to determine direction of transfer.  "
            ++ "Both source and destination are either local or remote")
      ↔ (parsedSrc.Scheme = "" ∧ parsedDest.Scheme = "")
        ∨ (parsedSrc.Scheme ≠ "" ∧ parsedSrc.Scheme ≠ "file"
            ∧ parsedDest.Scheme ≠ "" ∧ parsedDest.Scheme ≠ "file") := by
  simp only [DoCopy, hsrc, hdest]
  by_cases h1 : parsedSrc.Scheme = "" <;> by_cases h2 : parsedSrc.Scheme = "file" <;>
    by_cases h3 : parsedDest.Scheme = "" <;> by_cases h4 : parsedDest.Scheme = "file" <;>
    simp_all

/-- C22, at inputs where the code departs from it: with a source without a
scheme and a destination with the `file` scheme, both local, `DoCopy` does not
fail but calls `DoPut` with the `file` URL as the remote destination; with both
of the `file` scheme it does the same; and with a source of the `file` scheme
and a destination without a scheme it calls `DoGet` with the `file` URL as the
remote object. Two paths without a scheme, and two `pelican` URLs, fail as the
claim says. -/
theorem DoCopy_file_scheme :
    DoCopy parseCopyURL "/tmp/in.txt" "file:///tmp/out.txt" false
        = .put "/tmp/in.txt" "file:///tmp/out.txt" false
      ∧ DoCopy parseCopyURL "file:///tmp/in.txt" "file:///tmp/out.txt" false
        = .put "/tmp/in.txt" "file:///tmp/out.txt" false
      ∧ DoCopy parseCopyURL "file:///tmp/in.txt" "/tmp/out.txt" false
        = .get "file:///tmp/in.txt" "/tmp/out.txt" false
      ∧ DoCopy parseCopyURL "/tmp/in.txt" "/tmp/out.txt" false
        = .failed ("unable to determine direction of transfer.  "
            ++ "Both source and destination are either local or remote")
      ∧ DoCopy parseCopyURL "pelican://fed.example/ns/obj" "pelican://fed.example/ns/obj" false
        = .failed ("unable to determine direction of transfer.  "
            ++ "Both source and destination are either local or remote") := by
  decide

/-! ## C23: the store after a declined ad -/

/-- An ad with an explicit expiration that is not in the future leaves the
store as it was, unless it is a Pelican ad that meets a stored topology ad. -/
theorem recordAd_expired_unchanged (env : DirectorEnv) (serverAds : ServerAds) (sAd : ServerAd)
    (namespaceAds : List NamespaceAdV2) (t : Int)
    (hexp : sAd.Expiration = some t) (hpast : t ≤ env.now)
    (hkeep : ∀ existing, findExisting serverAds sAd.URL = some existing →
      ¬ (sAd.FromTopology = false ∧ existing.value.ServerAd.FromTopology = true)) :
    recordAd env serverAds sAd namespaceAds = (serverAds, ServerAd.zero) := by
  obtain ⟨hU, _, hF, _, hE, _⟩ := updateLatLong_fields env sAd
  have hle : timeUntil env.now t ≤ 0 := by
    unfold timeUntil
    split_ifs <;> omega
  have hstore : ∀ (store : ServerAds) (ad : ServerAd), ad.Expiration = some t →
      storeAd env store ad namespaceAds = (store, ServerAd.zero) := by
    intro store ad had
    simp [storeAd, had, hle]
  by_cases hurl : sAd.URL = ""
  · simp [recordAd, hU, hurl]
  · cases hfind : findExisting serverAds sAd.URL with
    | none =>
      simp only [recordAd, hU, hurl, if_false, hfind]
      exact hstore _ _ (by rw [hE, hexp])
    | some existing =>
      have hk := hkeep existing hfind
      cases h1 : sAd.FromTopology <;> cases h2 : existing.value.ServerAd.FromTopology
      · simp only [recordAd, hU, hurl, if_false, hfind, hF, h1, h2]
        simp
        exact hstore _ _ (by simp [hE, hexp])
      · exact absurd ⟨h1, h2⟩ hk
      · simp [recordAd, hU, hurl, hfind, hF, h1, h2]
      · simp only [recordAd, hU, hurl, if_false, hfind, hF, h1, h2]
        simp
        exact hstore _ _ (by rw [hE, hexp])

/-- C23, at the input where the code departs from it: with a topology ad
stored under `https://cache.example:8000`, a Pelican ad for the same URL whose
expiration is already past is declined (the empty ad is returned and nothing is
stored under its URL), and yet the store is not as it was: the topology ad is
gone. -/
theorem recordAd_declined_changes_store :
    (recordAd dirEnv ServerAds.empty topoAdHttps nsAds).1 "https://cache.example:8000"
        = some ⟨⟨topoAdHttps, nsAds⟩, 15 * Minute⟩
      ∧ (recordAd dirEnv (recordAd dirEnv ServerAds.empty topoAdHttps nsAds).1
          pelicanAdExpired nsAds).2 = ServerAd.zero
      ∧ (recordAd dirEnv (recordAd dirEnv ServerAds.empty topoAdHttps nsAds).1
          pelicanAdExpired nsAds).1 "https://cache.example:8000" = none
      ∧ (recordAd dirEnv (recordAd dirEnv ServerAds.empty topoAdHttps nsAds).1
          pelicanAdExpired nsAds).1 ≠ (recordAd dirEnv ServerAds.empty topoAdHttps nsAds).1 := by
  refine ⟨by decide, by decide, by decide, ?_⟩
  intro h
  have h1 := congrFun h "https://cache.example:8000"
  revert h1
  decide

/-! ## C24: the slices of a `Link` header -/

/-- The loop over the segments of a part completes exactly when every segment
that starts with "<" has at least two characters and every other segment that
starts with "pri" has at least four. -/
theorem scanLinks_ok_iff :
    ∀ (links : List String) (st : GoString × Int),
      (∃ out, scanLinks links st = .ok out)
        ↔ ∀ val ∈ links, (hasPrefix val "<" = true → 2 ≤ val.length)
            ∧ (hasPrefix val "<" = false → hasPrefix val "pri" = true → 4 ≤ val.length) := by
  intro links
  induction links with
  | nil => intro st; simp [scanLinks]
  | cons val rest ih =>
    intro st
    obtain ⟨endpoint, pri⟩ := st
    rw [List.forall_mem_cons]
    by_cases h1 : hasPrefix val "<" = true
    · cases hs : sliceInner val with
      | none =>
        have hn : ¬ 2 ≤ val.length := by
          simp only [sliceInner] at hs
          split at hs
          · rename_i hr
            have hl := congrArg List.length hr
            simp only [List.length_reverse, List.length_drop, List.length_nil] at hl
            simp only [String.length]
            omega
          · simp at hs
        simp [scanLinks, h1, hs, hn]
      | some inner =>
        have hl : 2 ≤ val.length := by
          simp only [sliceInner] at hs
          split at hs
          · simp at hs
          · rename_i last init hr
            have hl := congrArg List.length hr
            simp only [List.length_reverse, List.length_drop, List.length_cons] at hl
            simp only [String.length]
            omega
        have hsc : scanLinks (val :: rest) (endpoint, pri) = scanLinks rest (inner, pri) := by
          simp [scanLinks, h1, hs]
        rw [hsc, ih]
        simp [h1, hl]
    · simp only [Bool.not_eq_true] at h1
      by_cases h2 : hasPrefix val "pri" = true
      · cases hs : priValue val with
        | none =>
          have hn : ¬ 4 ≤ val.length := by
            simp only [priValue] at hs
            split at hs
            · rename_i hr
              have hl := congrArg List.length hr
              simp only [List.length_drop, List.length_nil] at hl
              simp only [String.length]
              omega
            · simp at hs
          simp [scanLinks, h1, h2, hs, hn]
        | some n =>
          have hl : 4 ≤ val.length := by
            simp only [priValue] at hs
            split at hs
            · simp at hs
            · rename_i c cs hr
              have hl := congrArg List.length hr
              simp only [List.length_drop, List.length_cons] at hl
              simp only [String.length]
              omega
          have hsc : scanLinks (val :: rest) (endpoint, pri) = scanLinks rest (endpoint, n) := by
            simp [scanLinks, h1, h2, hs]
          rw [hsc, ih]
          simp [h1, h2, hl]
      · simp only [Bool.not_eq_true] at h2
        have hsc : scanLinks (val :: rest) (endpoint, pri) = scanLinks rest (endpoint, pri) := by
          simp [scanLinks, h1, h2]
        rw [hsc, ih]
        simp [h1, h2]

/-- C24, at inputs where the code departs from it: on a `Link` header whose
entry ends with the segment `pri`, the slice `val[4:]` is taken of a segment of
three bytes, and on the `Link` header `<` the slice `val[1:len(val)-1]` is
`val[1:0]`; both are run-time panics of `parseServersFromDirectorResponse`. -/
theorem parseServers_slice_panics :
    parseServersFromDirectorResponse sortSlice parseText redirectNoPri
        = .error "slice bounds out of range [4:3]"
      ∧ parseServersFromDirectorResponse sortSlice parseText redirectLoneBracket
        = .error "slice bounds out of range [1:0]" := by
  decide

/-! ## C25: the tests of an origin without a POSIX backend -/

/-- C25: when the origin is enabled and `Origin.StorageType` reads other than
"posix", then after the block of `InitServer` that precedes
`SetServerDefaults` both `Origin.SelfTest` and `Origin.DirectorTest` read
false, whatever layers held them, and `Origin.StorageType` is untouched; when
`Origin.StorageType` reads "posix", or the origin is not enabled, the block
leaves every key as it was. -/
theorem InitServer_origin_tests (IsEnabled : ServerType → Bool) (v : ServerViper) :
    (IsEnabled .OriginType = true → v.StorageType.get "" ≠ "posix" →
        (InitServer IsEnabled v).SelfTest.get false = false
          ∧ (InitServer IsEnabled v).DirectorTest.get false = false
          ∧ (InitServer IsEnabled v).StorageType = v.StorageType)
      ∧ (v.StorageType.get "" = "posix" → InitServer IsEnabled v = v)
      ∧ (IsEnabled .OriginType = false → InitServer IsEnabled v = v) := by
  refine ⟨?_, ?_, ?_⟩
  · intro ho hs
    simp only [InitServer, ho, Bool.true_and, bne_iff_ne, ne_eq, hs, not_false_eq_true, if_true]
    refine ⟨?_, ?_, trivial⟩
    · cases h : v.SelfTest.get false
      · simp [h]
      · simp [ViperKey.get]
    · cases h : v.DirectorTest.get false
      · simp [h]
      · simp [ViperKey.get]
  · intro hs
    simp [InitServer, hs]
  · intro ho
    simp [InitServer, ho]

/-- C25 at concrete inputs: an origin with an S3 backend and both tests
configured on has both tests off after the block, and an origin with a POSIX
backend keeps its configuration. -/
theorem InitServer_origin_tests_witness :
    ((InitServer originCacheRegistry s3Origin).SelfTest.get false = false
        ∧ (InitServer originCacheRegistry s3Origin).DirectorTest.get false = false
        ∧ (InitServer originCacheRegistry s3Origin).StorageType = s3Origin.StorageType)
      ∧ InitServer originCacheRegistry posixOrigin = posixOrigin :=
  ⟨(InitServer_origin_tests originCacheRegistry s3Origin).1 (by decide) (by decide),
    (InitServer_origin_tests originCacheRegistry posixOrigin).2.1 (by decide)⟩

end Pelican
